import Mathlib

/-!
Shallow embedding of the polygon-set based antenna rule checker
(src/src/ant/src/AntennaChecker.cc) over the rationals, together with
theorems settling the frozen claims about it.

Doubles of the source are modelled as rationals; the claims under study are
algebraic statements about the computed quantities, not about rounding.
Database object identities (gate names, layers) are modelled by plain data
carrying exactly the attributes the checker reads.
-/

namespace Ant

/-- A piecewise-linear table: the source keeps two parallel vectors
`indices` / `ratios` of equal length; we keep the zipped list of
(index, ratio) points. -/
abbrev PwlTable := List (ℚ × ℚ)

/-- The interpolation loop of `AntennaChecker::getPwlFactor` (lines 730-745).
The carried state (`idx1`, `ratio1`, `slope`) mirrors the locals
`pwl_info_index1`, `pwl_info_ratio1`, `slope`; each step recomputes the slope
from the carried point and the next point, returns the interpolated value when
`idx1 <= ref < idx2`, and otherwise shifts the carried point.  When the list is
exhausted the last point is extrapolated with the last slope (line 745). -/
def pwlGo (ref : ℚ) : PwlTable → ℚ → ℚ → ℚ → ℚ
  | [], idx1, ratio1, slope => ratio1 + (ref - idx1) * slope
  | (idx2, ratio2) :: rest, idx1, ratio1, _ =>
    if idx1 ≤ ref ∧ ref < idx2 then
      ratio1 + (ref - idx1) * ((ratio2 - ratio1) / (idx2 - idx1))
    else pwlGo ref rest idx2 ratio2 ((ratio2 - ratio1) / (idx2 - idx1))

/-- `AntennaChecker::getPwlFactor` (lines 722-748): empty table returns the
caller default, a one-point table its single ratio, otherwise the loop runs
over all points starting from the first (the source loop starts at `i = 0`,
so its first iteration compares the first point against itself; that
comparison can never succeed and its degenerate slope is immediately
overwritten, which the embedding reproduces). -/
def getPwlFactor (pwl : PwlTable) (ref_value default_value : ℚ) : ℚ :=
  match pwl with
  | [] => default_value
  | [(_, ratio0)] => ratio0
  | (idx0, ratio0) :: rest => pwlGo ref_value ((idx0, ratio0) :: rest) idx0 ratio0 1

/-- A layer antenna rule as consumed by the checker: the fields are exactly
those the source reads through `dbTechLayerAntennaRule` accessors. -/
structure AntennaRule where
  areaFactor : ℚ := 1
  isAreaFactorDiffUseOnly : Bool := false
  sideAreaFactor : ℚ := 1
  isSideAreaFactorDiffUseOnly : Bool := false
  areaMinusDiffFactor : ℚ := 0
  gatePlusDiffFactor : ℚ := 0
  areaDiffReduce : PwlTable := []
  PAR : ℚ := 0
  PSR : ℚ := 0
  CAR : ℚ := 0
  CSR : ℚ := 0
  diffPAR : PwlTable := []
  diffPSR : PwlTable := []
  diffCAR : PwlTable := []
  diffCSR : PwlTable := []
deriving DecidableEq, Repr

/-- The cached per-layer factors (struct `AntennaModel`, lines 120-136). -/
structure AntennaModel where
  metal_factor : ℚ
  diff_metal_factor : ℚ
  cut_factor : ℚ
  diff_cut_factor : ℚ
  side_metal_factor : ℚ
  diff_side_metal_factor : ℚ
  minus_diff_factor : ℚ
  plus_diff_factor : ℚ
  diff_metal_reduce_factor : ℚ
deriving DecidableEq, Repr

/-- A tech layer as the checker sees it: routing level (0 = cut/via layer),
thickness, and the optional default antenna rule.  `idx` stands for the
database object identity used as a map key. -/
structure Layer where
  idx : Nat
  routingLevel : Nat
  thickness : ℚ := 0
  rule : Option AntennaRule := none
deriving DecidableEq, Repr

/-- Body of the per-layer loop of `AntennaChecker::initAntennaRules`
(lines 158-227): derive an `AntennaModel` from a layer's optional rule.
Factors default to 1, the minus/plus diff factors to 0; a rule flagged
diffusion-use-only feeds only the diff variants. -/
def initAntennaModel (rule : Option AntennaRule) : AntennaModel :=
  match rule with
  | none =>
    { metal_factor := 1, diff_metal_factor := 1
      cut_factor := 1, diff_cut_factor := 1
      side_metal_factor := 1, diff_side_metal_factor := 1
      minus_diff_factor := 0, plus_diff_factor := 0
      diff_metal_reduce_factor := 1 }
  | some r =>
    let (metal_factor, diff_metal_factor, cut_factor, diff_cut_factor) :=
      if r.isAreaFactorDiffUseOnly then
        (1, r.areaFactor, 1, r.areaFactor)
      else
        (r.areaFactor, r.areaFactor, r.areaFactor, r.areaFactor)
    let (side_metal_factor, diff_side_metal_factor) :=
      if r.isSideAreaFactorDiffUseOnly then
        (1, r.sideAreaFactor)
      else
        (r.sideAreaFactor, r.sideAreaFactor)
    { metal_factor := metal_factor, diff_metal_factor := diff_metal_factor
      cut_factor := cut_factor, diff_cut_factor := diff_cut_factor
      side_metal_factor := side_metal_factor
      diff_side_metal_factor := diff_side_metal_factor
      minus_diff_factor := r.areaMinusDiffFactor
      plus_diff_factor := r.gatePlusDiffFactor
      diff_metal_reduce_factor := 1 }

/-- The `layer_info_` map filled by `initAntennaRules`: every layer's entry is
the model derived from its rule. -/
def layerModel (l : Layer) : AntennaModel := initAntennaModel l.rule

/-- A master terminal's antenna attributes: `getIoType`, and the per-layer
gate-area and diff-area entries read by `AntennaChecker::gateArea`
(lines 707-720) and `AntennaChecker::diffArea` (lines 2903-2912).  An mterm
without a default antenna model is represented by empty lists. -/
structure MTerm where
  isInput : Bool := true
  gate_areas : List ℚ := []
  diff_areas : List ℚ := []
deriving DecidableEq, Repr

/-- `AntennaChecker::gateArea`: the maximum of the per-layer gate-area
entries, starting the running maximum at 0. -/
def gateArea (m : MTerm) : ℚ := m.gate_areas.foldl max 0

/-- `AntennaChecker::diffArea`: the maximum of the per-layer diff-area
entries, starting the running maximum at 0. -/
def diffArea (m : MTerm) : ℚ := m.diff_areas.foldl max 0

/-- `AntennaChecker::isValidGate` (lines 1753-1755): an input mterm with
positive gate area. -/
def isValidGate (m : MTerm) : Bool := m.isInput && decide (gateArea m > 0)

/-- `struct PinType` (lines 1579-1591): a pin attached to an island; `name`
is the identity key (the source compares pins by name string; we use a
numeric id), `isITerm` distinguishes instance pins from block terminals, and
instance pins carry their mterm's antenna attributes. -/
structure PinType where
  isITerm : Bool
  name : Nat
  mterm : MTerm := {}
deriving DecidableEq, Repr

/-- An island node of the layered graph (`struct GraphNode`, lines
1600-1608), restricted to the attributes `calculateAreas` reads: the polygon
area and perimeter (already converted to microns; the dbu-to-micron
conversion of the source is a fixed positive rescaling) and the pins
attached by `saveGates`. -/
structure GraphNode where
  pol_area : ℚ := 0
  pol_perimeter : ℚ := 0
  gates : List PinType := []
deriving DecidableEq, Repr

/-- The per-gate per-layer accumulated record (`InfoType`).  The struct
itself lives in the checker's header, which is not part of the sources at
hand; its field list is fixed by the spec's InfoRecord (§3) together with
every field access in the .cc, and fresh records start at zero. -/
structure InfoType where
  area : ℚ := 0
  side_area : ℚ := 0
  iterm_gate_area : ℚ := 0
  iterm_diff_area : ℚ := 0
  PAR : ℚ := 0
  PSR : ℚ := 0
  diff_PAR : ℚ := 0
  diff_PSR : ℚ := 0
  CAR : ℚ := 0
  CSR : ℚ := 0
  diff_CAR : ℚ := 0
  diff_CSR : ℚ := 0
  iterms : List Nat := []
deriving DecidableEq, Repr

/-- Modelled from the spec: `InfoType::operator+=` lives in the missing
header.  Spec §3 and §4.4 fix its behavior on the fields the claims touch:
merged records sum `area` and `side_area` while the per-gate
`iterm_gate_area` / `iterm_diff_area` are not double-counted (§3
"the area and side-area sum but the gate/diff areas do not double-count"),
and the running sums of `calculateCAR` accumulate
PAR, PSR, diff_PAR and diff_PSR (§4.4 "keeping two separate running sums
sumWire and sumVia of {PAR, PSR, diff_PAR, diff_PSR}"). -/
def infoAdd (a b : InfoType) : InfoType :=
  { a with
    area := a.area + b.area
    side_area := a.side_area + b.side_area
    PAR := a.PAR + b.PAR
    PSR := a.PSR + b.PSR
    diff_PAR := a.diff_PAR + b.diff_PAR
    diff_PSR := a.diff_PSR + b.diff_PSR
    iterms := a.iterms ++ b.iterms }

/-- `AntennaChecker::calculateWirePar` (lines 1757-1790).  Reads the layer's
cached factors, evaluates the `areaDiffReduce` PWL table at the record's
diffusion area (default 1.0), and fills PAR/PSR/diff_PAR/diff_PSR; the
diff-connected branch is taken when `iterm_diff_area` is nonzero. -/
def calculateWirePar (l : Layer) (info : InfoType) : InfoType :=
  let am := layerModel l
  let diff_metal_reduce_factor : ℚ :=
    match l.rule with
    | some rule => getPwlFactor rule.areaDiffReduce info.iterm_diff_area 1
    | none => 1
  if info.iterm_diff_area ≠ 0 then
    { info with
      PAR := (am.diff_metal_factor * info.area) / info.iterm_gate_area
      PSR := (am.diff_side_metal_factor * info.side_area) / info.iterm_gate_area
      diff_PAR := (am.diff_metal_factor * info.area * diff_metal_reduce_factor
          - am.minus_diff_factor * info.iterm_diff_area)
        / (info.iterm_gate_area + am.plus_diff_factor * info.iterm_diff_area)
      diff_PSR := (am.diff_side_metal_factor * info.side_area * diff_metal_reduce_factor
          - am.minus_diff_factor * info.iterm_diff_area)
        / (info.iterm_gate_area + am.plus_diff_factor * info.iterm_diff_area) }
  else
    { info with
      PAR := (am.metal_factor * info.area) / info.iterm_gate_area
      PSR := (am.side_metal_factor * info.side_area) / info.iterm_gate_area
      diff_PAR := (am.metal_factor * info.area * diff_metal_reduce_factor)
        / info.iterm_gate_area
      diff_PSR := (am.side_metal_factor * info.side_area * diff_metal_reduce_factor)
        / info.iterm_gate_area }

/-- `AntennaChecker::calculateViaPar` (lines 1792-1816): the cut-layer
variant; only PAR and diff_PAR are written. -/
def calculateViaPar (l : Layer) (info : InfoType) : InfoType :=
  let am := layerModel l
  let diff_metal_reduce_factor : ℚ :=
    match l.rule with
    | some rule => getPwlFactor rule.areaDiffReduce info.iterm_diff_area 1
    | none => 1
  if info.iterm_diff_area ≠ 0 then
    { info with
      PAR := (am.diff_cut_factor * info.area) / info.iterm_gate_area
      diff_PAR := (am.diff_cut_factor * info.area * diff_metal_reduce_factor
          - am.minus_diff_factor * info.iterm_diff_area)
        / (info.iterm_gate_area + am.plus_diff_factor * info.iterm_diff_area) }
  else
    { info with
      PAR := (am.cut_factor * info.area) / info.iterm_gate_area
      diff_PAR := (am.cut_factor * info.area * diff_metal_reduce_factor)
        / info.iterm_gate_area }

/-- Gate records of one gate: an association list keyed by layer (the inner
map of `info_`). -/
abbrev GateRecords := List (Layer × InfoType)

/-- The `info_` map: gate name (id) to its per-layer records. -/
abbrev InfoMap := List (Nat × GateRecords)

/-- Association-list lookup keyed by layer. -/
def lookupRec : GateRecords → Layer → Option InfoType
  | [], _ => none
  | (k, v) :: rest, l => if k = l then some v else lookupRec rest l

/-- Association-list lookup keyed by gate id. -/
def lookupGate : InfoMap → Nat → Option GateRecords
  | [], _ => none
  | (k, v) :: rest, g => if k = g then some v else lookupGate rest g

/-- Update (or insert at the end) the record of one layer inside a gate's
records: `info_[gate][layer] += info` when present, plain store otherwise
(lines 1845-1850). -/
def storeRec : GateRecords → Layer → InfoType → GateRecords
  | [], l, info => [(l, info)]
  | (k, v) :: rest, l, info =>
    if k = l then (k, infoAdd v info) :: rest
    else (k, v) :: storeRec rest l info

/-- Update (or insert at the end) one gate's records in the info map. -/
def storeGate : InfoMap → Nat → Layer → InfoType → InfoMap
  | [], g, l, info => [(g, storeRec [] l info)]
  | (k, v) :: rest, g, l, info =>
    if k = g then (k, storeRec v l info) :: rest
    else (k, v) :: storeGate rest g l info

/-- The per-island record built by the body of `AntennaChecker::calculateAreas`
(lines 1821-1840): polygon area, side area (perimeter times thickness, metal
layers only), and gate/diff areas summed over ALL instance pins attached to
the island; `iterms` lists those pins. -/
def nodeInfo (l : Layer) (n : GraphNode) : InfoType :=
  let gs := n.gates.filter (·.isITerm)
  { area := n.pol_area
    side_area := if l.routingLevel ≠ 0 then n.pol_perimeter * l.thickness else 0
    iterm_gate_area := (gs.map (fun g => gateArea g.mterm)).sum
    iterm_diff_area := (gs.map (fun g => diffArea g.mterm)).sum
    iterms := gs.map (·.name) }

/-- The second loop of `calculateAreas` (lines 1842-1851): store the island's
record for every valid gate attached to it, merging into an existing record
for the same (gate, layer). -/
def addNodeToInfo (l : Layer) (n : GraphNode) (m : InfoMap) : InfoMap :=
  if (n.gates.filter (·.isITerm)).isEmpty then m
  else
    (n.gates.filter (fun g => g.isITerm && isValidGate g.mterm)).foldl
      (fun acc g => storeGate acc g.name l (nodeInfo l n)) m

/-- `AntennaChecker::calculateAreas` (lines 1818-1854) over the layered node
map, starting from an empty `info_`. -/
def calculateAreas (nodes : List (Layer × List GraphNode)) : InfoMap :=
  nodes.foldl (fun m ln => ln.2.foldl (fun acc n => addNodeToInfo ln.1 n acc) m) []

/-- `AntennaChecker::calculatePAR` (lines 1857-1870): recompute every
record's partial ratios, via variant on cut layers. -/
def calculatePAR (m : InfoMap) : InfoMap :=
  m.map (fun gr =>
    (gr.1, gr.2.map (fun li =>
      (li.1, if li.1.routingLevel = 0 then calculateViaPar li.1 li.2
             else calculateWirePar li.1 li.2))))

/-- The layer walk of `AntennaChecker::calculateCAR` (lines 1873-1898) for one
gate: traverse the layer stack bottom to top carrying the two running sums
`sumWire` and `sumVia`; a layer holding a record folds the record into the sum
of its kind (cut or routing) and then adds the sum's partial ratios into the
record's cumulative fields.  `layers` is the full stack, bottom first, so
every record's layer occurs in it (in the source the stack is walked through
`getUpperLayer`). -/
def calcCARgo (recs : GateRecords) : List Layer → InfoType → InfoType → GateRecords
  | [], _, _ => []
  | l :: rest, sumWire, sumVia =>
    match lookupRec recs l with
    | none => calcCARgo recs rest sumWire sumVia
    | some info =>
      if l.routingLevel = 0 then
        let sumVia1 := infoAdd sumVia info
        (l, { info with
                CAR := info.CAR + sumVia1.PAR
                CSR := info.CSR + sumVia1.PSR
                diff_CAR := info.diff_CAR + sumVia1.diff_PAR
                diff_CSR := info.diff_CSR + sumVia1.diff_PSR })
          :: calcCARgo recs rest sumWire sumVia1
      else
        let sumWire1 := infoAdd sumWire info
        (l, { info with
                CAR := info.CAR + sumWire1.PAR
                CSR := info.CSR + sumWire1.PSR
                diff_CAR := info.diff_CAR + sumWire1.diff_PAR
                diff_CSR := info.diff_CSR + sumWire1.diff_PSR })
          :: calcCARgo recs rest sumWire1 sumVia

/-- `AntennaChecker::calculateCAR` over the whole info map. -/
def calculateCAR (layers : List Layer) (m : InfoMap) : InfoMap :=
  m.map (fun gr => (gr.1, calcCARgo gr.2 layers {} {}))

/-- `AntennaChecker::checkPAR` (lines 1900-1951) stripped of its reporting:
returns (violation, checked).  The fixed threshold and the PWL-diff threshold
are BOTH scaled by the ratio margin before being compared; the fixed check
applies when the scaled fixed threshold is nonzero, else the PWL-diff check
when that threshold is nonzero.  Only called on layers with a rule. -/
def checkPARpair (l : Layer) (margin : ℚ) (info : InfoType) : Bool × Bool :=
  match l.rule with
  | none => (false, false)
  | some rule =>
    let PAR_threshold := rule.PAR * (1 - margin / 100)
    let diff_PAR_PWL := getPwlFactor rule.diffPAR info.iterm_diff_area 0 * (1 - margin / 100)
    if PAR_threshold ≠ 0 then (decide (info.PAR > PAR_threshold), false)
    else if diff_PAR_PWL ≠ 0 then (decide (info.diff_PAR > diff_PAR_PWL), true)
    else (false, false)

/-- `AntennaChecker::checkPSR` (lines 1953-2004), same shape as `checkPAR`
on the side-area quantities. -/
def checkPSRpair (l : Layer) (margin : ℚ) (info : InfoType) : Bool × Bool :=
  match l.rule with
  | none => (false, false)
  | some rule =>
    let PSR_threshold := rule.PSR * (1 - margin / 100)
    let diff_PSR_PWL := getPwlFactor rule.diffPSR info.iterm_diff_area 0 * (1 - margin / 100)
    if PSR_threshold ≠ 0 then (decide (info.PSR > PSR_threshold), false)
    else if diff_PSR_PWL ≠ 0 then (decide (info.diff_PSR > diff_PSR_PWL), true)
    else (false, false)

/-- `AntennaChecker::checkCAR` (lines 2006-2051): note that no ratio margin
is applied to either the fixed or the PWL cumulative threshold. -/
def checkCARbool (l : Layer) (info : InfoType) : Bool :=
  match l.rule with
  | none => false
  | some rule =>
    if rule.CAR ≠ 0 then decide (info.CAR > rule.CAR)
    else
      let diff_CAR_PWL := getPwlFactor rule.diffCAR info.iterm_diff_area 0
      if diff_CAR_PWL ≠ 0 then decide (info.diff_CAR > diff_CAR_PWL) else false

/-- `AntennaChecker::checkCSR` (lines 2053-2098), margin-free like `checkCAR`. -/
def checkCSRbool (l : Layer) (info : InfoType) : Bool :=
  match l.rule with
  | none => false
  | some rule =>
    if rule.CSR ≠ 0 then decide (info.CSR > rule.CSR)
    else
      let diff_CSR_PWL := getPwlFactor rule.diffCSR info.iterm_diff_area 0
      if diff_CSR_PWL ≠ 0 then decide (info.diff_CSR > diff_CSR_PWL) else false

/-- The violation record pushed at line 2217; its field list is visible in
the push and in the spec (§3 Violation). -/
structure Violation where
  routing_level : Nat
  gates : List Nat
  diode_count_per_gate : Nat
deriving DecidableEq, Repr

/-- One turn of the diode `while` loop (lines 2192-2210) with explicit fuel:
if PAR or PSR still violates, raise the (local copy's) `iterm_diff_area` by
the diode diffusion area times the number of gates on the record, bump the
count, recompute PAR/PSR with `calculateWirePar`, and stop the walk once the
count exceeds the cap.  `fuel` only bounds the recursion; it is chosen large
enough that it never runs out before the cap test fires. -/
def diodeIter (l : Layer) (margin : ℚ) (maxDiode : Nat) (dd : ℚ) (k : Nat) :
    Nat → InfoType → Nat → Nat × InfoType
  | 0, info, count => (count, info)
  | fuel + 1, info, count =>
    if (checkPARpair l margin info).1 || (checkPSRpair l margin info).1 then
      let raised := { info with iterm_diff_area := info.iterm_diff_area + dd * k }
      let recomputed := calculateWirePar l raised
      if count + 1 > maxDiode then (count + 1, recomputed)
      else diodeIter l margin maxDiode dd k fuel recomputed (count + 1)
    else (count, info)

/-- The diode-count estimation for one violating metal-layer record
(lines 2180-2210): the gate count `k` is the length of the record's iterm
list, fixed before the loop, and the count starts at zero.
`max_diode_count_per_gate` is a fixed cap from the missing header; it is kept
as the parameter `maxDiode` (the spec only calls it "a fixed cap"). -/
def diodeLoop (l : Layer) (margin : ℚ) (maxDiode : Nat) (dd : ℚ)
    (info : InfoType) : Nat × InfoType :=
  diodeIter l margin maxDiode dd info.iterms.length (maxDiode + 2) info 0

/-- The per-record body of `AntennaChecker::checkInfo` (lines 2113-2221),
reporting stripped: state is (pin has a violation yet, `pin_added`,
violation list).  A layer without a rule contributes nothing; metal layers
check PAR, PSR, CAR and CSR, via layers PAR and CAR; when a diode mterm is
supplied, a violating metal record whose gate is not in `pin_added` runs the
diode loop, marks all its iterms added, and emits one violation when the
final count is positive. -/
def checkGateRecs (margin : ℚ) (maxDiode : Nat) (diode : Option MTerm) (g : Nat) :
    GateRecords → List (Layer × Nat) → List Violation → Bool →
    Bool × List (Layer × Nat) × List Violation
  | [], pa, vs, pv => (pv, pa, vs)
  | (l, info) :: rest, pa, vs, pv =>
    match l.rule with
    | none => checkGateRecs margin maxDiode diode g rest pa vs pv
    | some _ =>
      let nodeViol :=
        if l.routingLevel ≠ 0 then
          (checkPARpair l margin info).1 || (checkPSRpair l margin info).1
            || checkCARbool l info || checkCSRbool l info
        else (checkPARpair l margin info).1 || checkCARbool l info
      if nodeViol then
        match diode with
        | some dm =>
          if l.routingLevel ≠ 0 ∧ (l, g) ∉ pa then
            let dd := diffArea dm
            let r := diodeLoop l margin maxDiode dd info
            let pa1 := pa ++ info.iterms.map (fun it => (l, it))
            let vs1 := if r.1 > 0 then vs ++ [⟨l.routingLevel, info.iterms, r.1⟩] else vs
            checkGateRecs margin maxDiode diode g rest pa1 vs1 true
          else checkGateRecs margin maxDiode diode g rest pa vs true
        | none => checkGateRecs margin maxDiode diode g rest pa vs true
      else checkGateRecs margin maxDiode diode g rest pa vs pv

/-- The gate loop of `checkInfo` (lines 2109-2241): count the gates with at
least one violating layer and thread `pin_added` and the violation list. -/
def checkInfoGo (margin : ℚ) (maxDiode : Nat) (diode : Option MTerm) :
    InfoMap → List (Layer × Nat) → List Violation → Nat → Nat × List Violation
  | [], _, vs, cnt => (cnt, vs)
  | (g, recs) :: rest, pa, vs, cnt =>
    let s := checkGateRecs margin maxDiode diode g recs pa vs false
    checkInfoGo margin maxDiode diode rest s.2.1 s.2.2 (if s.1 then cnt + 1 else cnt)

/-- `AntennaChecker::checkInfo`: returns the pin violation count and the
violation list accumulated into `antenna_violations_`. -/
def checkInfo (margin : ℚ) (maxDiode : Nat) (diode : Option MTerm) (m : InfoMap) :
    Nat × List Violation :=
  checkInfoGo margin maxDiode diode m [] [] 0

/-- `AntennaChecker::checkNet` (lines 2360-2378) starting from zero counters:
the net counter is bumped exactly when the net has a violating pin. -/
def checkNet (margin : ℚ) (maxDiode : Nat) (diode : Option MTerm) (m : InfoMap) :
    Nat × Nat × List Violation :=
  let r := checkInfo margin maxDiode diode m
  (if r.1 > 0 then 1 else 0, r.1, r.2)

/-- The adjacency decision of `AntennaChecker::buildLayerMaps` for one
via-layer island (lines 2330-2353), abstracted over the intersection results:
`upper_index` / `lower_index` are the islands of the immediate upper / lower
routing layer that intersect the via island (the value
`findNodesWithIntersection` computes).  `upper_to_via` lists the upper
islands that record the via as a lower neighbor; `via_low_adj` is the via
island's own lower-neighbor list; the error flags are the two
"via ... conect with multiple wires" log branches. -/
structure ViaConn where
  upper_to_via : List Nat
  via_low_adj : List Nat
  upper_err : Bool
  lower_err : Bool
deriving DecidableEq, Repr

/-- Lines 2335-2352: the upper side is connected when at most two islands
intersect and logged when more than two do; the lower side is connected only
when exactly one island intersects, and logged only when more than two do. -/
def connectVia (upper_index lower_index : List Nat) : ViaConn :=
  { upper_to_via := if upper_index.length ≤ 2 then upper_index else []
    upper_err := decide (upper_index.length > 2)
    via_low_adj := if lower_index.length = 1 then lower_index else []
    lower_err := decide (lower_index.length > 2) }

/-- The via loop of `buildLayerMaps`: every via island is processed in turn;
an error on one via does not stop the walk. -/
def buildViaAdjacency (vias : List (List Nat × List Nat)) : List ViaConn :=
  vias.map (fun v => connectVia v.1 v.2)

/-- The `diff_metal_reduce_factor` used by the partial-ratio computations:
the PWL evaluation of the rule's `areaDiffReduce` table at the record's
diffusion area, defaulting to 1 (lines 1767-1771). -/
def reduceFactor (l : Layer) (Gd : ℚ) : ℚ :=
  match l.rule with
  | some rule => getPwlFactor rule.areaDiffReduce Gd 1
  | none => 1

/-- C1: on a metal layer, a diff-connected record (`iterm_diff_area ≠ 0`) gets
PAR = diff_metal_factor·A / Gg, PSR = diff_side_metal_factor·S / Gg,
diff_PAR = (diff_metal_factor·A·R − minus_diff·Gd) / (Gg + plus_diff·Gd) and
diff_PSR likewise, with R the PWL evaluation of areaDiffReduce at Gd
(default 1); when Gd = 0 the metal_factor / side_metal_factor variants divide
by Gg alone. -/
theorem C1_calculateWirePar_formulas (l : Layer) (info : InfoType) :
    (info.iterm_diff_area ≠ 0 →
      (calculateWirePar l info).PAR
          = ((layerModel l).diff_metal_factor * info.area) / info.iterm_gate_area ∧
      (calculateWirePar l info).PSR
          = ((layerModel l).diff_side_metal_factor * info.side_area) / info.iterm_gate_area ∧
      (calculateWirePar l info).diff_PAR
          = ((layerModel l).diff_metal_factor * info.area * reduceFactor l info.iterm_diff_area
              - (layerModel l).minus_diff_factor * info.iterm_diff_area)
            / (info.iterm_gate_area + (layerModel l).plus_diff_factor * info.iterm_diff_area) ∧
      (calculateWirePar l info).diff_PSR
          = ((layerModel l).diff_side_metal_factor * info.side_area
                * reduceFactor l info.iterm_diff_area
              - (layerModel l).minus_diff_factor * info.iterm_diff_area)
            / (info.iterm_gate_area + (layerModel l).plus_diff_factor * info.iterm_diff_area))
    ∧
    (info.iterm_diff_area = 0 →
      (calculateWirePar l info).PAR
          = ((layerModel l).metal_factor * info.area) / info.iterm_gate_area ∧
      (calculateWirePar l info).PSR
          = ((layerModel l).side_metal_factor * info.side_area) / info.iterm_gate_area ∧
      (calculateWirePar l info).diff_PAR
          = ((layerModel l).metal_factor * info.area * reduceFactor l info.iterm_diff_area)
            / info.iterm_gate_area ∧
      (calculateWirePar l info).diff_PSR
          = ((layerModel l).side_metal_factor * info.side_area
                * reduceFactor l info.iterm_diff_area)
            / info.iterm_gate_area) := by
  constructor <;> intro h <;>
    simp [calculateWirePar, reduceFactor, h]

/-- Witness for C1 at a concrete diff-connected record and a concrete clean
record. -/
theorem C1_witness :
    ((⟨0, 1, 1, some {}⟩ : Layer).rule = some {} ∧
      (calculateWirePar ⟨0, 1, 1, some {}⟩
          { area := 10, iterm_gate_area := 4, iterm_diff_area := 2 }).PAR = 10 / 4) ∧
    (calculateWirePar ⟨0, 1, 1, some {}⟩
        { area := 10, iterm_gate_area := 4 }).PAR = 10 / 4 := by
  refine ⟨⟨rfl, ?_⟩, ?_⟩
  · have h := (C1_calculateWirePar_formulas ⟨0, 1, 1, some {}⟩
      { area := 10, iterm_gate_area := 4, iterm_diff_area := 2 }).1 (by norm_num)
    rw [h.1]
    norm_num [layerModel, initAntennaModel]
  · have h := (C1_calculateWirePar_formulas ⟨0, 1, 1, some {}⟩
      { area := 10, iterm_gate_area := 4 }).2 rfl
    rw [h.1]
    norm_num [layerModel, initAntennaModel]

/-- C8: when the area factor is flagged diffusion-use-only, only the diff
metal and diff cut factors take it and the plain factors stay 1; otherwise
all four take it; the side factors split the same way on their own flag. -/
theorem C8_initAntennaModel_split (r : AntennaRule) :
    (initAntennaModel (some r)).metal_factor
        = (if r.isAreaFactorDiffUseOnly then 1 else r.areaFactor) ∧
    (initAntennaModel (some r)).cut_factor
        = (if r.isAreaFactorDiffUseOnly then 1 else r.areaFactor) ∧
    (initAntennaModel (some r)).diff_metal_factor = r.areaFactor ∧
    (initAntennaModel (some r)).diff_cut_factor = r.areaFactor ∧
    (initAntennaModel (some r)).side_metal_factor
        = (if r.isSideAreaFactorDiffUseOnly then 1 else r.sideAreaFactor) ∧
    (initAntennaModel (some r)).diff_side_metal_factor = r.sideAreaFactor := by
  rcases r with ⟨af, dao, saf, sdao, _, _, _, _, _, _, _, _, _, _, _⟩
  cases dao <;> cases sdao <;> simp [initAntennaModel]

/-- Value of the linear segment through points `p` and `q` at `ref`. -/
def pwlSeg (p q : ℚ × ℚ) (ref : ℚ) : ℚ :=
  p.2 + (ref - p.1) * ((q.2 - p.2) / (q.1 - p.1))

/-- Linear extrapolation from the last point `q` using the slope of the last
segment `p → q`. -/
def pwlExtrap (p q : ℚ × ℚ) (ref : ℚ) : ℚ :=
  q.2 + (ref - q.1) * ((q.2 - p.2) / (q.1 - p.1))

theorem pwlGo_interp (mid : List (ℚ × ℚ)) :
    ∀ (p q : ℚ × ℚ) (post : List (ℚ × ℚ)) (ref idx1 r1 s : ℚ),
    (∀ x ∈ mid, x.1 ≤ ref) → p.1 ≤ ref → ref < q.1 →
    pwlGo ref (mid ++ p :: q :: post) idx1 r1 s = pwlSeg p q ref := by
  induction mid with
  | nil =>
    intro p q post ref idx1 r1 s _ hp hq
    obtain ⟨p1, p2⟩ := p
    obtain ⟨q1, q2⟩ := q
    simp only [List.nil_append, pwlGo]
    rw [if_neg (fun hc => absurd hc.2 (not_lt.2 hp))]
    rw [if_pos ⟨hp, hq⟩]
    rfl
  | cons m mid ih =>
    intro p q post ref idx1 r1 s hmid hp hq
    obtain ⟨m1, m2⟩ := m
    have hm : m1 ≤ ref := hmid (m1, m2) (List.mem_cons_self _ _)
    simp only [List.cons_append, pwlGo]
    rw [if_neg (fun hc => absurd hc.2 (not_lt.2 hm))]
    exact ih p q post ref m1 m2 _ (fun x hx => hmid x (List.mem_cons_of_mem _ hx)) hp hq

theorem pwlGo_hi (mid : List (ℚ × ℚ)) :
    ∀ (p q : ℚ × ℚ) (ref idx1 r1 s : ℚ),
    (∀ x ∈ mid, x.1 ≤ ref) → p.1 ≤ ref → q.1 ≤ ref →
    pwlGo ref (mid ++ [p, q]) idx1 r1 s = pwlExtrap p q ref := by
  induction mid with
  | nil =>
    intro p q ref idx1 r1 s _ hp hq
    obtain ⟨p1, p2⟩ := p
    obtain ⟨q1, q2⟩ := q
    simp only [List.nil_append, pwlGo]
    rw [if_neg (fun hc => absurd hc.2 (not_lt.2 hp))]
    rw [if_neg (fun hc => absurd hc.2 (not_lt.2 hq))]
    rfl
  | cons m mid ih =>
    intro p q ref idx1 r1 s hmid hp hq
    obtain ⟨m1, m2⟩ := m
    have hm : m1 ≤ ref := hmid (m1, m2) (List.mem_cons_self _ _)
    simp only [List.cons_append, pwlGo]
    rw [if_neg (fun hc => absurd hc.2 (not_lt.2 hm))]
    exact ih p q ref m1 m2 _ (fun x hx => hmid x (List.mem_cons_of_mem _ hx)) hp hq

theorem pwlGo_lo (mid : List (ℚ × ℚ)) :
    ∀ (p q : ℚ × ℚ) (ref idx1 r1 s : ℚ),
    ref < idx1 → (∀ x ∈ mid, ref < x.1) → ref < p.1 → ref < q.1 →
    pwlGo ref (mid ++ [p, q]) idx1 r1 s = pwlExtrap p q ref := by
  induction mid with
  | nil =>
    intro p q ref idx1 r1 s hidx _ hp hq
    obtain ⟨p1, p2⟩ := p
    obtain ⟨q1, q2⟩ := q
    simp only [List.nil_append, pwlGo]
    rw [if_neg (fun hc => absurd hc.1 (not_le.2 hidx))]
    rw [if_neg (fun hc => absurd hc.1 (not_le.2 hp))]
    rfl
  | cons m mid ih =>
    intro p q ref idx1 r1 s hidx hmid hp hq
    obtain ⟨m1, m2⟩ := m
    have hm : ref < m1 := hmid (m1, m2) (List.mem_cons_self _ _)
    simp only [List.cons_append, pwlGo]
    rw [if_neg (fun hc => absurd hc.1 (not_le.2 hidx))]
    exact ih p q ref m1 m2 _ hm (fun x hx => hmid x (List.mem_cons_of_mem _ hx)) hp hq

theorem getPwlFactor_go (x y : ℚ × ℚ) (rest : List (ℚ × ℚ)) (ref d : ℚ) :
    getPwlFactor (x :: y :: rest) ref d = pwlGo ref (x :: y :: rest) x.1 x.2 1 := by
  obtain ⟨x1, x2⟩ := x
  obtain ⟨y1, y2⟩ := y
  rfl

theorem getPwlFactor_go2 (x : ℚ × ℚ) (t : List (ℚ × ℚ)) (h : t ≠ []) (ref d : ℚ) :
    getPwlFactor (x :: t) ref d = pwlGo ref (x :: t) x.1 x.2 1 := by
  cases t with
  | nil => exact absurd rfl h
  | cons y rest => exact getPwlFactor_go x y rest ref d

/-- C5: `getPwlFactor` returns the caller default on the empty table, the
single ratio on a one-point table; with two or more strictly increasing
points, on a reference inside some segment it linearly interpolates that
segment, and outside the table's index range (above the last index, or below
every index) it extrapolates from the last point with the slope of the last
segment. -/
theorem C5_getPwlFactor_spec :
    (∀ ref d : ℚ, getPwlFactor [] ref d = d) ∧
    (∀ (pt : ℚ × ℚ) (ref d : ℚ), getPwlFactor [pt] ref d = pt.2) ∧
    (∀ (pre : List (ℚ × ℚ)) (p q : ℚ × ℚ) (post : List (ℚ × ℚ)) (ref d : ℚ),
       List.Pairwise (fun a b : ℚ × ℚ => a.1 < b.1) (pre ++ p :: q :: post) →
       p.1 ≤ ref → ref < q.1 →
       getPwlFactor (pre ++ p :: q :: post) ref d = pwlSeg p q ref) ∧
    (∀ (pre : List (ℚ × ℚ)) (p q : ℚ × ℚ) (ref d : ℚ),
       List.Pairwise (fun a b : ℚ × ℚ => a.1 < b.1) (pre ++ [p, q]) →
       (q.1 ≤ ref ∨ (∀ x ∈ pre ++ [p, q], ref < x.1)) →
       getPwlFactor (pre ++ [p, q]) ref d = pwlExtrap p q ref) := by
  refine ⟨fun ref d => rfl, fun pt ref d => ?_, fun pre p q post ref d hsort hp hq => ?_,
    fun pre p q ref d hsort hout => ?_⟩
  · obtain ⟨i, r⟩ := pt
    rfl
  · have hpre : ∀ x ∈ pre, x.1 ≤ ref := by
      intro x hx
      have hlt : x.1 < p.1 :=
        (List.pairwise_append.mp hsort).2.2 x hx p (List.mem_cons_self _ _)
      exact le_of_lt (lt_of_lt_of_le hlt hp)
    cases pre with
    | nil =>
      rw [List.nil_append, getPwlFactor_go]
      exact pwlGo_interp [] p q post ref p.1 p.2 1 (by simp) hp hq
    | cons a pre =>
      rw [List.cons_append, getPwlFactor_go2 a _ (by simp)]
      rw [show a :: (pre ++ p :: q :: post) = (a :: pre) ++ p :: q :: post from rfl]
      exact pwlGo_interp (a :: pre) p q post ref a.1 a.2 1 hpre hp hq
  · rcases hout with hhi | hlo
    · have hpq : p.1 < q.1 := by
        have := List.pairwise_append.mp hsort
        exact (List.pairwise_cons.mp this.2.1).1 q (List.mem_cons_self _ _)
      have hp : p.1 ≤ ref := le_of_lt (lt_of_lt_of_le hpq hhi)
      have hpre : ∀ x ∈ pre, x.1 ≤ ref := by
        intro x hx
        have hlt : x.1 < p.1 :=
          (List.pairwise_append.mp hsort).2.2 x hx p (List.mem_cons_self _ _)
        exact le_of_lt (lt_of_lt_of_le hlt hp)
      cases pre with
      | nil =>
        rw [List.nil_append, getPwlFactor_go]
        exact pwlGo_hi [] p q ref p.1 p.2 1 (by simp) hp hhi
      | cons a pre =>
        rw [List.cons_append, getPwlFactor_go2 a _ (by simp)]
        rw [show a :: (pre ++ [p, q]) = (a :: pre) ++ [p, q] from rfl]
        exact pwlGo_hi (a :: pre) p q ref a.1 a.2 1 hpre hp hhi
    · have hp : ref < p.1 := hlo p (by simp)
      have hq : ref < q.1 := hlo q (by simp)
      cases pre with
      | nil =>
        rw [List.nil_append, getPwlFactor_go]
        exact pwlGo_lo [] p q ref p.1 p.2 1 hp (by simp) hp hq
      | cons a pre =>
        rw [List.cons_append, getPwlFactor_go2 a _ (by simp)]
        rw [show a :: (pre ++ [p, q]) = (a :: pre) ++ [p, q] from rfl]
        refine pwlGo_lo (a :: pre) p q ref a.1 a.2 1 (hlo a (by simp)) ?_ hp hq
        intro x hx
        rcases List.mem_cons.mp hx with h | h
        · exact hlo x (h ▸ List.mem_cons_self _ _)
        · exact hlo x (List.mem_cons_of_mem _ (List.mem_append_left _ h))

/-- Witness for C5: interpolation of the table (0,1),(10,3) at 5 gives 2,
extrapolation at 20 gives 5, and extrapolation below the range at -5 also
uses the last slope, giving 0; the empty and one-point cases at concrete
inputs. -/
theorem C5_witness :
    getPwlFactor [] (7 : ℚ) 9 = 9 ∧
    getPwlFactor [((2 : ℚ), (5 : ℚ))] 100 0 = 5 ∧
    getPwlFactor [((0 : ℚ), (1 : ℚ)), ((10 : ℚ), (3 : ℚ))] 5 0 = 2 ∧
    getPwlFactor [((0 : ℚ), (1 : ℚ)), ((10 : ℚ), (3 : ℚ))] 20 0 = 5 ∧
    getPwlFactor [((0 : ℚ), (1 : ℚ)), ((10 : ℚ), (3 : ℚ))] (-5) 0 = 0 := by
  obtain ⟨h1, h2, h3, h4⟩ := C5_getPwlFactor_spec
  refine ⟨h1 7 9, h2 (2, 5) 100 0, ?_, ?_, ?_⟩
  · have := h3 [] (0, 1) (10, 3) [] 5 0 (by norm_num) (by norm_num) (by norm_num)
    rw [List.nil_append] at this
    rw [this]
    norm_num [pwlSeg]
  · have := h4 [] (0, 1) (10, 3) 20 0 (by norm_num) (Or.inl (by norm_num))
    rw [List.nil_append] at this
    rw [this]
    norm_num [pwlExtrap]
  · have := h4 [] (0, 1) (10, 3) (-5) 0 (by norm_num)
      (Or.inr (by intro x hx; fin_cases hx <;> norm_num))
    rw [List.nil_append] at this
    rw [this]
    norm_num [pwlExtrap]

/-- C3 counterexample: a metal-layer record whose only applicable PAR
threshold is the PWL diff threshold (fixed PAR = 0, diffPAR table = single
point 1) and whose diff_PAR is 9/10 does not violate at margin 0, but does
violate at margin 20, because `checkPAR` scales the PWL threshold by the
margin as well (line 1910).  This refutes "no record whose only applicable
thresholds are PWL diff thresholds becomes violating purely because r was
raised". -/
theorem C3_counterexample :
    ({ diffPAR := [(0, 1)] } : AntennaRule).PAR = 0 ∧
    (checkPARpair ⟨0, 1, 1, some { diffPAR := [(0, 1)] }⟩ 0 { diff_PAR := 9/10 }).1 = false ∧
    (checkPARpair ⟨0, 1, 1, some { diffPAR := [(0, 1)] }⟩ 20 { diff_PAR := 9/10 }).1 = true := by
  refine ⟨rfl, ?_, ?_⟩ <;> norm_num [checkPARpair, getPwlFactor]

/-- C3 as amended: raising the margin from 0 to r in [0,100) preserves every
fixed-ratio PAR and PSR violation (positive fixed thresholds only shrink);
but the margin also scales the PWL diff thresholds of checkPAR/checkPSR, so
when the fixed threshold is 0 the PWL check runs against the scaled
threshold and new PWL-only violations can appear (the cumulative checks take
no margin at all). -/
theorem C3_margin_monotone (l : Layer) (rule : AntennaRule) (info : InfoType) (r : ℚ)
    (hl : l.rule = some rule) (h0 : 0 ≤ r) (h100 : r < 100) :
    (0 < rule.PAR → (checkPARpair l 0 info).1 = true → (checkPARpair l r info).1 = true) ∧
    (0 < rule.PSR → (checkPSRpair l 0 info).1 = true → (checkPSRpair l r info).1 = true) ∧
    (rule.PAR = 0 →
      getPwlFactor rule.diffPAR info.iterm_diff_area 0 * (1 - r / 100) ≠ 0 →
      (checkPARpair l r info).1
        = decide (info.diff_PAR
            > getPwlFactor rule.diffPAR info.iterm_diff_area 0 * (1 - r / 100))) := by
  have hscale : (0 : ℚ) < 1 - r / 100 := by linarith
  refine ⟨?_, ?_, ?_⟩
  · intro hT hv
    simp only [checkPARpair, hl] at hv ⊢
    have e0 : rule.PAR * (1 - (0 : ℚ) / 100) = rule.PAR := by norm_num
    rw [e0, if_pos (ne_of_gt hT)] at hv
    have hgt : info.PAR > rule.PAR := by simpa using hv
    have hTr : 0 < rule.PAR * (1 - r / 100) := mul_pos hT hscale
    rw [if_pos (ne_of_gt hTr)]
    have hle : rule.PAR * (1 - r / 100) ≤ rule.PAR := by nlinarith
    simp only [decide_eq_true_eq]
    linarith
  · intro hT hv
    simp only [checkPSRpair, hl] at hv ⊢
    have e0 : rule.PSR * (1 - (0 : ℚ) / 100) = rule.PSR := by norm_num
    rw [e0, if_pos (ne_of_gt hT)] at hv
    have hgt : info.PSR > rule.PSR := by simpa using hv
    have hTr : 0 < rule.PSR * (1 - r / 100) := mul_pos hT hscale
    rw [if_pos (ne_of_gt hTr)]
    have hle : rule.PSR * (1 - r / 100) ≤ rule.PSR := by nlinarith
    simp only [decide_eq_true_eq]
    linarith
  · intro hz hpwl
    simp only [checkPARpair, hl, hz, zero_mul]
    rw [if_neg (by simp), if_pos hpwl]

/-- Witness for C3: a fixed-threshold violation (PAR 2 against threshold 1)
persists when the margin is raised to 50. -/
theorem C3_witness :
    (checkPARpair ⟨0, 1, 1, some { PAR := 1 }⟩ 50 { PAR := 2 }).1 = true :=
  (C3_margin_monotone ⟨0, 1, 1, some { PAR := 1 }⟩ { PAR := 1 } { PAR := 2 } 50
      rfl (by norm_num) (by norm_num)).1 (by norm_num)
    (by norm_num [checkPARpair])

theorem calculateWirePar_frame (l : Layer) (i : InfoType) :
    (calculateWirePar l i).area = i.area ∧
    (calculateWirePar l i).side_area = i.side_area ∧
    (calculateWirePar l i).iterm_gate_area = i.iterm_gate_area ∧
    (calculateWirePar l i).iterm_diff_area = i.iterm_diff_area ∧
    (calculateWirePar l i).CAR = i.CAR ∧
    (calculateWirePar l i).CSR = i.CSR ∧
    (calculateWirePar l i).diff_CAR = i.diff_CAR ∧
    (calculateWirePar l i).diff_CSR = i.diff_CSR ∧
    (calculateWirePar l i).iterms = i.iterms := by
  unfold calculateWirePar
  split <;> split <;> simp

theorem diodeIter_spec (l : Layer) (margin : ℚ) (maxDiode : Nat) (dd : ℚ) (k : Nat) :
    ∀ (fuel : Nat) (info : InfoType) (count : Nat),
    maxDiode + 1 ≤ fuel + count →
    ∃ m : Nat,
      (diodeIter l margin maxDiode dd k fuel info count).1 = count + m ∧
      (diodeIter l margin maxDiode dd k fuel info count).2.iterm_diff_area
        = info.iterm_diff_area + (m : ℚ) * (dd * k) ∧
      (diodeIter l margin maxDiode dd k fuel info count).2.area = info.area ∧
      (diodeIter l margin maxDiode dd k fuel info count).2.side_area = info.side_area ∧
      (diodeIter l margin maxDiode dd k fuel info count).2.iterm_gate_area
        = info.iterm_gate_area ∧
      (diodeIter l margin maxDiode dd k fuel info count).2.CAR = info.CAR ∧
      (diodeIter l margin maxDiode dd k fuel info count).2.CSR = info.CSR ∧
      (diodeIter l margin maxDiode dd k fuel info count).2.diff_CAR = info.diff_CAR ∧
      (diodeIter l margin maxDiode dd k fuel info count).2.diff_CSR = info.diff_CSR ∧
      (diodeIter l margin maxDiode dd k fuel info count).2.iterms = info.iterms ∧
      (((checkPARpair l margin (diodeIter l margin maxDiode dd k fuel info count).2).1
          || (checkPSRpair l margin (diodeIter l margin maxDiode dd k fuel info count).2).1)
            = false
        ∨ (diodeIter l margin maxDiode dd k fuel info count).1 > maxDiode) ∧
      (count ≤ maxDiode →
        (m = 0 ↔ ((checkPARpair l margin info).1 || (checkPSRpair l margin info).1) = false)) := by
  intro fuel
  induction fuel with
  | zero =>
    intro info count hfuel
    refine ⟨0, by simp [diodeIter], by simp [diodeIter], by simp [diodeIter],
      by simp [diodeIter], by simp [diodeIter], by simp [diodeIter], by simp [diodeIter],
      by simp [diodeIter], by simp [diodeIter], by simp [diodeIter],
      Or.inr (by simp [diodeIter]; omega), fun hc => absurd hfuel (by omega)⟩
  | succ fuel ih =>
    intro info count hfuel
    by_cases hv : ((checkPARpair l margin info).1 || (checkPSRpair l margin info).1) = true
    · by_cases hcap : count + 1 > maxDiode
      · refine ⟨1, ?_⟩
        have hred : diodeIter l margin maxDiode dd k (fuel + 1) info count
            = (count + 1, calculateWirePar l
                { info with iterm_diff_area := info.iterm_diff_area + dd * k }) := by
          rw [diodeIter, if_pos hv, if_pos hcap]
        obtain ⟨f1, f2, f3, f4, f5, f6, f7, f8, f9⟩ := calculateWirePar_frame l
          { info with iterm_diff_area := info.iterm_diff_area + dd * k }
        rw [hred]
        refine ⟨rfl, ?_, by simpa using f1, by simpa using f2, by simpa using f3,
          by simpa using f5, by simpa using f6, by simpa using f7, by simpa using f8,
          by simpa using f9, Or.inr (by simpa using hcap), fun hc => ?_⟩
        · rw [f4]
          push_cast
          ring
        · constructor
          · intro h
            exact absurd h one_ne_zero
          · intro h
            rw [hv] at h
            exact absurd h (by simp)
      · have hred : diodeIter l margin maxDiode dd k (fuel + 1) info count
            = diodeIter l margin maxDiode dd k fuel
                (calculateWirePar l
                  { info with iterm_diff_area := info.iterm_diff_area + dd * k })
                (count + 1) := by
          rw [diodeIter, if_pos hv, if_neg hcap]
        obtain ⟨m, h1, h2, h3, h4, h5, h6, h7, h8, h9, h10, h11, h12⟩ :=
          ih (calculateWirePar l
              { info with iterm_diff_area := info.iterm_diff_area + dd * k })
            (count + 1) (by omega)
        obtain ⟨f1, f2, f3, f4, f5, f6, f7, f8, f9⟩ := calculateWirePar_frame l
          { info with iterm_diff_area := info.iterm_diff_area + dd * k }
        refine ⟨m + 1, ?_, ?_, ?_, ?_, ?_, ?_, ?_, ?_, ?_, ?_, ?_, fun hc => ?_⟩
        · rw [hred, h1]
          omega
        · rw [hred, h2, f4]
          simp only [InfoType.mk.injEq]
          push_cast
          ring
        · rw [hred, h3, f1]
        · rw [hred, h4, f2]
        · rw [hred, h5, f3]
        · rw [hred, h6, f5]
        · rw [hred, h7, f6]
        · rw [hred, h8, f7]
        · rw [hred, h9, f8]
        · rw [hred, h10, f9]
        · rw [hred]
          exact h11
        · constructor
          · intro h
            exact absurd h (by omega)
          · intro h
            rw [hv] at h
            exact absurd h (by simp)
    · have hv0 : ((checkPARpair l margin info).1 || (checkPSRpair l margin info).1) = false := by
        simpa using hv
      have hred : diodeIter l margin maxDiode dd k (fuel + 1) info count = (count, info) := by
        rw [diodeIter, if_neg (by simp [hv0])]
      rw [hred]
      exact ⟨0, by simp, by simp, rfl, rfl, rfl, rfl, rfl, rfl, rfl, rfl,
        Or.inl hv0, fun hc => by simp [hv0]⟩

theorem diodeLoop_eq (l : Layer) (margin : ℚ) (maxDiode : Nat) (dd : ℚ) (info : InfoType) :
    diodeLoop l margin maxDiode dd info
      = diodeIter l margin maxDiode dd info.iterms.length (maxDiode + 2) info 0 := rfl

/-- C2 as amended: for a violating metal-layer record whose gate is not yet
in `pin_added`, the diode loop repeatedly adds diffArea(diodeMTerm) times the
record's gate count to a local copy's `iterm_diff_area`, increments the
count, recomputes and re-checks only PAR and PSR (the cumulative fields of
the copy never change), stops when both pass or the count exceeds the cap,
and exactly one Violation is emitted iff the final count is positive, with
all of the record's iterms then marked in `pin_added` (so later records of
other gates sharing these iterms on this layer skip the loop). -/
theorem C2_diode_loop_and_emission (l : Layer) (rule : AntennaRule) (margin : ℚ)
    (maxDiode : Nat) (dm : MTerm) (g : Nat) (info : InfoType)
    (pa : List (Layer × Nat)) (vs : List Violation)
    (hrule : l.rule = some rule) (hmetal : l.routingLevel ≠ 0) (hnew : (l, g) ∉ pa)
    (hviol : ((checkPARpair l margin info).1 || (checkPSRpair l margin info).1
        || checkCARbool l info || checkCSRbool l info) = true) :
    ((diodeLoop l margin maxDiode (diffArea dm) info).2.iterm_diff_area
        = info.iterm_diff_area
          + ((diodeLoop l margin maxDiode (diffArea dm) info).1 : ℚ)
              * (diffArea dm * info.iterms.length)) ∧
    ((diodeLoop l margin maxDiode (diffArea dm) info).2.area = info.area ∧
     (diodeLoop l margin maxDiode (diffArea dm) info).2.side_area = info.side_area ∧
     (diodeLoop l margin maxDiode (diffArea dm) info).2.iterm_gate_area
        = info.iterm_gate_area ∧
     (diodeLoop l margin maxDiode (diffArea dm) info).2.CAR = info.CAR ∧
     (diodeLoop l margin maxDiode (diffArea dm) info).2.CSR = info.CSR ∧
     (diodeLoop l margin maxDiode (diffArea dm) info).2.diff_CAR = info.diff_CAR ∧
     (diodeLoop l margin maxDiode (diffArea dm) info).2.diff_CSR = info.diff_CSR ∧
     (diodeLoop l margin maxDiode (diffArea dm) info).2.iterms = info.iterms) ∧
    (((checkPARpair l margin (diodeLoop l margin maxDiode (diffArea dm) info).2).1
        || (checkPSRpair l margin (diodeLoop l margin maxDiode (diffArea dm) info).2).1)
          = false
      ∨ (diodeLoop l margin maxDiode (diffArea dm) info).1 > maxDiode) ∧
    ((diodeLoop l margin maxDiode (diffArea dm) info).1 = 0
      ↔ ((checkPARpair l margin info).1 || (checkPSRpair l margin info).1) = false) ∧
    (checkGateRecs margin maxDiode (some dm) g [(l, info)] pa vs false
      = (true, pa ++ info.iterms.map (fun it => (l, it)),
         if (diodeLoop l margin maxDiode (diffArea dm) info).1 > 0
         then vs ++ [⟨l.routingLevel, info.iterms,
                (diodeLoop l margin maxDiode (diffArea dm) info).1⟩]
         else vs)) := by
  obtain ⟨m, h1, h2, h3, h4, h5, h6, h7, h8, h9, h10, h11, h12⟩ :=
    diodeIter_spec l margin maxDiode (diffArea dm) info.iterms.length
      (maxDiode + 2) info 0 (by omega)
  rw [diodeLoop_eq] at *
  refine ⟨?_, ⟨h3, h4, h5, h6, h7, h8, h9, h10⟩, h11, ?_, ?_⟩
  · rw [h2, h1]
    norm_num
  · rw [h1]
    simpa using h12 (Nat.zero_le _)
  · simp only [checkGateRecs, hrule]
    rw [if_pos (by simpa [hmetal] using hviol)]
    rw [if_pos ⟨hmetal, hnew⟩]
    simp only [checkGateRecs, diodeLoop_eq]

/-- Concrete metal layer for the C2 scenarios: routing level 1, fixed PAR
threshold 1. -/
def mLayerW : Layer := ⟨1, 1, 0, some { PAR := 1 }⟩

/-- Concrete violating record shared by two gates (iterms 1 and 2): PAR 2
against threshold 1, small underlying area so one diode repairs it. -/
def infoW : InfoType := { area := 1/2, iterm_gate_area := 1, PAR := 2, iterms := [1, 2] }

/-- Concrete diode master terminal with diffusion area 5. -/
def dmW : MTerm := { diff_areas := [5] }

/-- Witness for C2: at the concrete violating record the loop's frame
conditions and the single-violation emission hold. -/
theorem C2_witness :
    (diodeLoop mLayerW 0 10 (diffArea dmW) infoW).2.CAR = infoW.CAR ∧
    checkGateRecs 0 10 (some dmW) 1 [(mLayerW, infoW)] [] [] false
      = (true, [(mLayerW, 1), (mLayerW, 2)],
         if (diodeLoop mLayerW 0 10 (diffArea dmW) infoW).1 > 0
         then [⟨1, [1, 2], (diodeLoop mLayerW 0 10 (diffArea dmW) infoW).1⟩]
         else []) := by
  obtain ⟨hd, hframe, hstop, hiff, hemit⟩ :=
    C2_diode_loop_and_emission mLayerW { PAR := 1 } 0 10 dmW 1 infoW [] []
      rfl (by norm_num [mLayerW]) (by simp)
      (by norm_num [checkPARpair, mLayerW, infoW, getPwlFactor])
  exact ⟨hframe.2.2.2.1, by simpa [mLayerW, infoW] using hemit⟩

/-- C2 counterexample: two gates (1 and 2) share the same violating record
on the same metal layer; both (gate, layer) pairs violate the PAR check with
a positive final diode count, yet `checkInfo` emits only ONE Violation,
because processing gate 1 marks both iterms in `pin_added` and gate 2 skips
the loop.  This refutes "emits exactly one Violation for each such
gate-layer whose final diodeCountPerGate is greater than 0". -/
theorem C2_counterexample :
    (checkPARpair mLayerW 0 infoW).1 = true ∧
    (checkInfo 0 10 (some dmW) [(1, [(mLayerW, infoW)]), (2, [(mLayerW, infoW)])]).2.length
      = 1 := by
  constructor
  · norm_num [checkPARpair, mLayerW, infoW, getPwlFactor]
  · norm_num [checkInfo, checkInfoGo, checkGateRecs, checkPARpair, checkPSRpair,
      checkCARbool, checkCSRbool, diodeLoop, diodeIter, calculateWirePar, layerModel,
      initAntennaModel, getPwlFactor, diffArea, mLayerW, infoW, dmW]

theorem checkGateRecs_fst (margin : ℚ) (maxDiode : Nat) (d1 d2 : Option MTerm) (g : Nat) :
    ∀ (recs : GateRecords) (pa1 pa2 : List (Layer × Nat)) (vs1 vs2 : List Violation)
      (pv : Bool),
    (checkGateRecs margin maxDiode d1 g recs pa1 vs1 pv).1
      = (checkGateRecs margin maxDiode d2 g recs pa2 vs2 pv).1 := by
  intro recs
  induction recs with
  | nil => intro pa1 pa2 vs1 vs2 pv; rfl
  | cons rec rest ih =>
    intro pa1 pa2 vs1 vs2 pv
    obtain ⟨l, info⟩ := rec
    cases hrl : l.rule with
    | none => simp only [checkGateRecs, hrl]; exact ih pa1 pa2 vs1 vs2 pv
    | some rule =>
      by_cases hnv : (if l.routingLevel ≠ 0 then
          ((checkPARpair l margin info).1 || (checkPSRpair l margin info).1
            || checkCARbool l info || checkCSRbool l info)
        else ((checkPARpair l margin info).1 || checkCARbool l info)) = true
      · cases d1 with
        | none =>
          cases d2 with
          | none =>
            simp only [checkGateRecs, hrl]
            rw [if_pos hnv, if_pos hnv]
            exact ih pa1 pa2 vs1 vs2 true
          | some dm2 =>
            simp only [checkGateRecs, hrl]
            rw [if_pos hnv, if_pos hnv]
            by_cases h2 : l.routingLevel ≠ 0 ∧ (l, g) ∉ pa2
            · rw [if_pos h2]
              exact ih pa1 _ vs1 _ true
            · rw [if_neg h2]
              exact ih pa1 pa2 vs1 vs2 true
        | some dm1 =>
          cases d2 with
          | none =>
            simp only [checkGateRecs, hrl]
            rw [if_pos hnv, if_pos hnv]
            by_cases h1 : l.routingLevel ≠ 0 ∧ (l, g) ∉ pa1
            · rw [if_pos h1]
              exact ih _ pa2 _ vs2 true
            · rw [if_neg h1]
              exact ih pa1 pa2 vs1 vs2 true
          | some dm2 =>
            simp only [checkGateRecs, hrl]
            rw [if_pos hnv, if_pos hnv]
            by_cases h1 : l.routingLevel ≠ 0 ∧ (l, g) ∉ pa1
            · rw [if_pos h1]
              by_cases h2 : l.routingLevel ≠ 0 ∧ (l, g) ∉ pa2
              · rw [if_pos h2]
                exact ih _ _ _ _ true
              · rw [if_neg h2]
                exact ih _ pa2 _ vs2 true
            · rw [if_neg h1]
              by_cases h2 : l.routingLevel ≠ 0 ∧ (l, g) ∉ pa2
              · rw [if_pos h2]
                exact ih pa1 _ vs1 _ true
              · rw [if_neg h2]
                exact ih pa1 pa2 vs1 vs2 true
      · cases d1 <;> cases d2 <;>
          (simp only [checkGateRecs, hrl]
           rw [if_neg hnv, if_neg hnv]
           exact ih pa1 pa2 vs1 vs2 pv)

theorem checkGateRecs_none (margin : ℚ) (maxDiode : Nat) (g : Nat) :
    ∀ (recs : GateRecords) (pa : List (Layer × Nat)) (vs : List Violation) (pv : Bool),
    (checkGateRecs margin maxDiode none g recs pa vs pv).2.1 = pa ∧
    (checkGateRecs margin maxDiode none g recs pa vs pv).2.2 = vs := by
  intro recs
  induction recs with
  | nil => intro pa vs pv; exact ⟨rfl, rfl⟩
  | cons rec rest ih =>
    intro pa vs pv
    obtain ⟨l, info⟩ := rec
    cases hrl : l.rule with
    | none => simp only [checkGateRecs, hrl]; exact ih pa vs pv
    | some rule =>
      simp only [checkGateRecs, hrl]
      split <;> split <;>
        first
        | exact ih pa vs true
        | exact ih pa vs pv

theorem checkInfoGo_fst (margin : ℚ) (maxDiode : Nat) (d1 d2 : Option MTerm) :
    ∀ (m : InfoMap) (pa1 pa2 : List (Layer × Nat)) (vs1 vs2 : List Violation) (cnt : Nat),
    (checkInfoGo margin maxDiode d1 m pa1 vs1 cnt).1
      = (checkInfoGo margin maxDiode d2 m pa2 vs2 cnt).1 := by
  intro m
  induction m with
  | nil => intro pa1 pa2 vs1 vs2 cnt; rfl
  | cons gr rest ih =>
    intro pa1 pa2 vs1 vs2 cnt
    obtain ⟨g, recs⟩ := gr
    simp only [checkInfoGo]
    rw [checkGateRecs_fst margin maxDiode d1 d2 g recs pa1 pa2 vs1 vs2 false]
    exact ih _ _ _ _ _

theorem checkInfoGo_none (margin : ℚ) (maxDiode : Nat) :
    ∀ (m : InfoMap) (pa : List (Layer × Nat)) (vs : List Violation) (cnt : Nat),
    (checkInfoGo margin maxDiode none m pa vs cnt).2 = vs := by
  intro m
  induction m with
  | nil => intro pa vs cnt; rfl
  | cons gr rest ih =>
    intro pa vs cnt
    obtain ⟨g, recs⟩ := gr
    simp only [checkInfoGo]
    obtain ⟨h1, h2⟩ := checkGateRecs_none margin maxDiode g recs pa vs false
    rw [h1, h2]
    exact ih _ _ _

/-- C6: supplying a diode mterm changes neither the net violation count nor
the pin violation count; a run without a diode emits no violations (the
diode loop only populates the violation list and the counts per gate); and
the stored records are read-only during the check — the diode loop works on
a copy of the record (source line 2184), which the value-passing embedding
makes structural: `checkInfo` consumes the same `m` in both runs. -/
theorem C6_diode_frame (margin : ℚ) (maxDiode : Nat) (dm : MTerm) (m : InfoMap) :
    (checkNet margin maxDiode (some dm) m).1 = (checkNet margin maxDiode none m).1 ∧
    (checkNet margin maxDiode (some dm) m).2.1 = (checkNet margin maxDiode none m).2.1 ∧
    (checkNet margin maxDiode none m).2.2 = [] := by
  have hfst : (checkInfo margin maxDiode (some dm) m).1
      = (checkInfo margin maxDiode none m).1 :=
    checkInfoGo_fst margin maxDiode (some dm) none m [] [] [] [] 0
  refine ⟨?_, ?_, ?_⟩
  · simp only [checkNet, hfst]
  · simp only [checkNet, hfst]
  · simp only [checkNet]
    exact checkInfoGo_none margin maxDiode m [] [] 0

/-- C9 counterexample: a via island intersecting exactly TWO islands on the
lower routing layer stores no lower adjacency at all and logs nothing
(lines 2344-2352 connect only when exactly one lower island intersects and
log only when more than two do), refuting "stores all of them as adjacency".
The upper side with two islands is stored, showing the asymmetry. -/
theorem C9_counterexample :
    (connectVia [] [3, 4]).via_low_adj = [] ∧
    (connectVia [] [3, 4]).lower_err = false ∧
    (connectVia [5, 6] []).upper_to_via = [5, 6] := by
  refine ⟨rfl, rfl, rfl⟩

/-- C9 as amended: for each via island the upper-layer islands intersecting
it are stored (pointing back down to the via) when there are at most two,
and with more than two the side is logged as a data error and left
unconnected; the via island's own lower-neighbor list is filled only when
exactly one lower island intersects — two intersecting lower islands are
neither stored nor logged, and more than two are logged and not stored.
Processing continues across all via islands regardless of errors. -/
theorem C9_via_adjacency (upper_index lower_index : List Nat)
    (vias : List (List Nat × List Nat)) :
    (upper_index.length ≤ 2 → (connectVia upper_index lower_index).upper_to_via = upper_index) ∧
    (upper_index.length > 2 → (connectVia upper_index lower_index).upper_to_via = []
        ∧ (connectVia upper_index lower_index).upper_err = true) ∧
    (lower_index.length = 1 → (connectVia upper_index lower_index).via_low_adj = lower_index) ∧
    (lower_index.length ≠ 1 → (connectVia upper_index lower_index).via_low_adj = []) ∧
    ((connectVia upper_index lower_index).lower_err = true ↔ lower_index.length > 2) ∧
    (buildViaAdjacency vias).length = vias.length := by
  refine ⟨?_, ?_, ?_, ?_, ?_, by simp [buildViaAdjacency]⟩
  · intro h
    simp [connectVia, h]
  · intro h
    constructor
    · simp [connectVia, if_neg (by omega : ¬ upper_index.length ≤ 2)]
    · simp [connectVia, h]
  · intro h
    simp [connectVia, h]
  · intro h
    simp [connectVia, h]
  · simp [connectVia]

/-- Witness for C9 at concrete intersection lists: one lower island is
stored, an upper pair is stored, a triple is an error. -/
theorem C9_witness :
    (connectVia [7, 8] [2]).via_low_adj = [2] ∧
    (connectVia [7, 8] [2]).upper_to_via = [7, 8] ∧
    (connectVia [1, 2, 3] [2]).upper_err = true := by
  refine ⟨(C9_via_adjacency [7, 8] [2] []).2.2.1 rfl,
    (C9_via_adjacency [7, 8] [2] []).1 (by norm_num),
    ((C9_via_adjacency [1, 2, 3] [2] []).2.1 (by norm_num)).2⟩

theorem foldl_max_init : ∀ (l : List ℚ) (acc : ℚ), acc ≤ l.foldl max acc := by
  intro l
  induction l with
  | nil => intro acc; simp
  | cons x xs ih =>
    intro acc
    simpa using le_trans (le_max_left acc x) (ih (max acc x))

theorem gateArea_nonneg (m : MTerm) : 0 ≤ gateArea m := foldl_max_init m.gate_areas 0

theorem diffArea_nonneg (m : MTerm) : 0 ≤ diffArea m := foldl_max_init m.diff_areas 0

/-- Per-record positivity: positive summed gate area, non-negative summed
diffusion area. -/
def goodInfo (i : InfoType) : Prop :=
  0 < i.iterm_gate_area ∧ 0 ≤ i.iterm_diff_area

theorem infoAdd_goodInfo (a b : InfoType) (ha : goodInfo a) : goodInfo (infoAdd a b) := ha

theorem lookupRec_mem : ∀ (recs : GateRecords) (l : Layer) (i : InfoType),
    lookupRec recs l = some i → (l, i) ∈ recs := by
  intro recs
  induction recs with
  | nil => intro l i h; exact absurd h (by simp [lookupRec])
  | cons kv rest ih =>
    intro l i h
    obtain ⟨k, v⟩ := kv
    by_cases hk : k = l
    · subst hk
      rw [lookupRec, if_pos rfl] at h
      obtain rfl : v = i := by simpa using h
      exact List.mem_cons_self _ _
    · rw [lookupRec, if_neg hk] at h
      exact List.mem_cons_of_mem _ (ih l i h)

theorem lookupGate_mem : ∀ (m : InfoMap) (g : Nat) (recs : GateRecords),
    lookupGate m g = some recs → (g, recs) ∈ m := by
  intro m
  induction m with
  | nil => intro g recs h; exact absurd h (by simp [lookupGate])
  | cons kv rest ih =>
    intro g recs h
    obtain ⟨k, v⟩ := kv
    by_cases hk : k = g
    · subst hk
      rw [lookupGate, if_pos rfl] at h
      obtain rfl : v = recs := by simpa using h
      exact List.mem_cons_self _ _
    · rw [lookupGate, if_neg hk] at h
      exact List.mem_cons_of_mem _ (ih g recs h)

theorem storeRec_good : ∀ (recs : GateRecords) (l : Layer) (info : InfoType),
    (∀ e ∈ recs, goodInfo e.2) → goodInfo info →
    ∀ e ∈ storeRec recs l info, goodInfo e.2 := by
  intro recs
  induction recs with
  | nil =>
    intro l info _ hinfo e he
    simp only [storeRec, List.mem_singleton] at he
    subst he
    exact hinfo
  | cons kv rest ih =>
    intro l info hall hinfo e he
    obtain ⟨k, v⟩ := kv
    by_cases hk : k = l
    · rw [storeRec, if_pos hk] at he
      rcases List.mem_cons.mp he with h | h
      · subst h
        exact infoAdd_goodInfo v info (hall (k, v) (List.mem_cons_self _ _))
      · exact hall _ (List.mem_cons_of_mem _ h)
    · rw [storeRec, if_neg hk] at he
      rcases List.mem_cons.mp he with h | h
      · subst h
        exact hall (k, v) (List.mem_cons_self _ _)
      · exact ih l info (fun x hx => hall x (List.mem_cons_of_mem _ hx)) hinfo e h

/-- Map-wide positivity of all records. -/
def goodMap (m : InfoMap) : Prop :=
  ∀ e ∈ m, ∀ r ∈ e.2, goodInfo r.2

theorem storeGate_good : ∀ (m : InfoMap) (g : Nat) (l : Layer) (info : InfoType),
    goodMap m → goodInfo info → goodMap (storeGate m g l info) := by
  intro m
  induction m with
  | nil =>
    intro g l info _ hinfo e he r hr
    simp only [storeGate, List.mem_singleton] at he
    subst he
    exact storeRec_good [] l info (by simp) hinfo r hr
  | cons kv rest ih =>
    intro g l info hall hinfo e he r hr
    obtain ⟨k, v⟩ := kv
    by_cases hk : k = g
    · rw [storeGate, if_pos hk] at he
      rcases List.mem_cons.mp he with h | h
      · subst h
        exact storeRec_good v l info
          (fun x hx => hall (k, v) (List.mem_cons_self _ _) x hx) hinfo r hr
      · exact hall _ (List.mem_cons_of_mem _ h) r hr
    · rw [storeGate, if_neg hk] at he
      rcases List.mem_cons.mp he with h | h
      · subst h
        exact hall (k, v) (List.mem_cons_self _ _) r hr
      · exact ih g l info (fun x hx => hall x (List.mem_cons_of_mem _ hx)) hinfo e h r hr

theorem nodeInfo_gate_pos (l : Layer) (n : GraphNode) (g : PinType)
    (hg : g ∈ n.gates.filter (fun x => x.isITerm && isValidGate x.mterm)) :
    goodInfo (nodeInfo l n) := by
  rw [List.mem_filter] at hg
  obtain ⟨hmem, hflags⟩ := hg
  rw [Bool.and_eq_true] at hflags
  obtain ⟨hit, hvalid⟩ := hflags
  have hmem2 : g ∈ n.gates.filter (·.isITerm) := List.mem_filter.mpr ⟨hmem, hit⟩
  have hga : gateArea g.mterm
      ∈ (n.gates.filter (·.isITerm)).map (fun x => gateArea x.mterm) :=
    List.mem_map.mpr ⟨g, hmem2, rfl⟩
  have hpos : 0 < gateArea g.mterm := by
    have h := hvalid
    simp only [isValidGate, Bool.and_eq_true, decide_eq_true_eq] at h
    exact h.2
  constructor
  · have hle : gateArea g.mterm
        ≤ ((n.gates.filter (·.isITerm)).map (fun x => gateArea x.mterm)).sum :=
      List.single_le_sum (fun x hx => by
        obtain ⟨y, _, rfl⟩ := List.mem_map.mp hx
        exact gateArea_nonneg y.mterm) _ hga
    calc (0 : ℚ) < gateArea g.mterm := hpos
      _ ≤ _ := hle
  · exact List.sum_nonneg (fun x hx => by
      obtain ⟨y, _, rfl⟩ := List.mem_map.mp hx
      exact diffArea_nonneg y.mterm)

theorem foldl_preserve {α β : Type} (P : β → Prop) (f : β → α → β)
    (h : ∀ b a, P b → P (f b a)) : ∀ (l : List α) (b : β), P b → P (l.foldl f b) := by
  intro l
  induction l with
  | nil => intro b hb; exact hb
  | cons x xs ih => intro b hb; exact ih (f b x) (h b x hb)

theorem addNodeToInfo_good (l : Layer) (n : GraphNode) (m : InfoMap)
    (hm : goodMap m) : goodMap (addNodeToInfo l n m) := by
  rw [addNodeToInfo]
  split
  · exact hm
  · have hfold : ∀ (gs : List PinType), (∀ g ∈ gs, goodInfo (nodeInfo l n)) →
        ∀ acc, goodMap acc →
        goodMap (gs.foldl (fun acc g => storeGate acc g.name l (nodeInfo l n)) acc) := by
      intro gs
      induction gs with
      | nil => intro _ acc hacc; exact hacc
      | cons x xs ih =>
        intro hgs acc hacc
        exact ih (fun g hg => hgs g (List.mem_cons_of_mem _ hg)) _
          (storeGate_good acc x.name l (nodeInfo l n) hacc
            (hgs x (List.mem_cons_self _ _)))
    exact hfold _ (fun g hg => nodeInfo_gate_pos l n g hg) m hm

theorem calculateAreas_good (nodes : List (Layer × List GraphNode)) :
    goodMap (calculateAreas nodes) := by
  rw [calculateAreas]
  refine foldl_preserve goodMap _ ?_ nodes [] (by intro e he; exact absurd he (by simp))
  intro m ln hm
  exact foldl_preserve goodMap _ (fun acc n hacc => addNodeToInfo_good ln.1 n acc hacc)
    ln.2 m hm

/-- C10: every record stored by `calculateAreas` has positive
`iterm_gate_area` (records exist only for gates passing `isValidGate`, and
the record sums the gate areas of all instance pins on the island, each
non-negative, including the positive one of the keyed gate) and
non-negative `iterm_diff_area`; hence the divisors `iterm_gate_area` and
`iterm_gate_area + plus_diff_factor * iterm_diff_area` of the PAR/PSR
computations are nonzero for any non-negative plus factor. -/
theorem C10_no_division_by_zero (nodes : List (Layer × List GraphNode))
    (g : Nat) (recs : GateRecords) (l : Layer) (info : InfoType)
    (hg : lookupGate (calculateAreas nodes) g = some recs)
    (hl : lookupRec recs l = some info) :
    0 < info.iterm_gate_area ∧ 0 ≤ info.iterm_diff_area ∧
    info.iterm_gate_area ≠ 0 ∧
    ∀ plus : ℚ, 0 ≤ plus → info.iterm_gate_area + plus * info.iterm_diff_area ≠ 0 := by
  have hmem := lookupGate_mem _ _ _ hg
  have hrec := lookupRec_mem _ _ _ hl
  obtain ⟨hpos, hdiff⟩ := calculateAreas_good nodes _ hmem _ hrec
  refine ⟨hpos, hdiff, ne_of_gt hpos, fun plus hplus => ne_of_gt ?_⟩
  have : 0 ≤ plus * info.iterm_diff_area := mul_nonneg hplus hdiff
  linarith

/-- Concrete island for the C10 witness: one valid input gate (id 7) of gate
area 4 on a metal layer. -/
def nodeC10 : GraphNode :=
  { pol_area := 10
    pol_perimeter := 22
    gates := [⟨true, 7, { gate_areas := [4] }⟩] }

/-- Witness for C10: the single stored record of the concrete island divides
safely. -/
theorem C10_witness :
    lookupGate (calculateAreas [(⟨1, 1, 1, none⟩, [nodeC10])]) 7
      = some [(⟨1, 1, 1, none⟩, nodeInfo ⟨1, 1, 1, none⟩ nodeC10)] ∧
    (0 : ℚ) < (nodeInfo ⟨1, 1, 1, none⟩ nodeC10).iterm_gate_area := by
  have hg : lookupGate (calculateAreas [(⟨1, 1, 1, none⟩, [nodeC10])]) 7
      = some [(⟨1, 1, 1, none⟩, nodeInfo ⟨1, 1, 1, none⟩ nodeC10)] := by
    norm_num [calculateAreas, addNodeToInfo, nodeC10, isValidGate, gateArea,
      storeGate, storeRec, lookupGate]
  refine ⟨hg, ?_⟩
  exact (C10_no_division_by_zero _ 7 _ ⟨1, 1, 1, none⟩ _ hg
    (by rw [lookupRec, if_pos rfl])).1

/-- Well-formedness of the `info_` map: no gate key repeats, and inside each
gate entry no layer key repeats — i.e. at most one record per (gate, layer). -/
def wfInfoMap (m : InfoMap) : Prop :=
  (m.map (·.1)).Nodup ∧ ∀ e ∈ m, (e.2.map (·.1)).Nodup

theorem storeRec_keys (l : Layer) (info : InfoType) : ∀ recs : GateRecords,
    (storeRec recs l info).map (·.1)
      = if l ∈ recs.map (·.1) then recs.map (·.1) else recs.map (·.1) ++ [l] := by
  intro recs
  induction recs with
  | nil => simp [storeRec]
  | cons kv rest ih =>
    obtain ⟨k, v⟩ := kv
    by_cases hk : k = l
    · subst hk
      rw [storeRec, if_pos rfl]
      simp
    · rw [storeRec, if_neg hk]
      simp only [List.map_cons, ih]
      by_cases hm : l ∈ rest.map (·.1)
      · rw [if_pos hm, if_pos (List.mem_cons_of_mem _ hm)]
      · rw [if_neg hm, if_neg ?_]
        · simp
        · intro hc
          rcases List.mem_cons.mp hc with h | h
          · exact hk h.symm
          · exact hm h

theorem storeRec_nodup (l : Layer) (info : InfoType) (recs : GateRecords)
    (h : (recs.map (·.1)).Nodup) : ((storeRec recs l info).map (·.1)).Nodup := by
  rw [storeRec_keys]
  split
  · exact h
  · next hm =>
    exact List.nodup_append.mpr ⟨h, List.nodup_singleton l,
      by simpa [List.disjoint_singleton] using hm⟩

theorem storeGate_keys (g : Nat) (l : Layer) (info : InfoType) : ∀ m : InfoMap,
    (storeGate m g l info).map (·.1)
      = if g ∈ m.map (·.1) then m.map (·.1) else m.map (·.1) ++ [g] := by
  intro m
  induction m with
  | nil => simp [storeGate]
  | cons kv rest ih =>
    obtain ⟨k, v⟩ := kv
    by_cases hk : k = g
    · subst hk
      rw [storeGate, if_pos rfl]
      simp
    · rw [storeGate, if_neg hk]
      simp only [List.map_cons, ih]
      by_cases hm : g ∈ rest.map (·.1)
      · rw [if_pos hm, if_pos (List.mem_cons_of_mem _ hm)]
      · rw [if_neg hm, if_neg ?_]
        · simp
        · intro hc
          rcases List.mem_cons.mp hc with h | h
          · exact hk h.symm
          · exact hm h

theorem storeGate_inner (g : Nat) (l : Layer) (info : InfoType) : ∀ m : InfoMap,
    (∀ e ∈ m, (e.2.map (·.1)).Nodup) →
    ∀ e ∈ storeGate m g l info, (e.2.map (·.1)).Nodup := by
  intro m
  induction m with
  | nil =>
    intro _ e he
    simp only [storeGate, List.mem_singleton] at he
    subst he
    exact storeRec_nodup l info [] (by simp)
  | cons kv rest ih =>
    intro hall e he
    obtain ⟨k, v⟩ := kv
    by_cases hk : k = g
    · rw [storeGate, if_pos hk] at he
      rcases List.mem_cons.mp he with h | h
      · subst h
        exact storeRec_nodup l info v (hall (k, v) (List.mem_cons_self _ _))
      · exact hall _ (List.mem_cons_of_mem _ h)
    · rw [storeGate, if_neg hk] at he
      rcases List.mem_cons.mp he with h | h
      · subst h
        exact hall (k, v) (List.mem_cons_self _ _)
      · exact ih (fun x hx => hall x (List.mem_cons_of_mem _ hx)) e h

theorem storeGate_wf (g : Nat) (l : Layer) (info : InfoType) (m : InfoMap)
    (h : wfInfoMap m) : wfInfoMap (storeGate m g l info) := by
  refine ⟨?_, storeGate_inner g l info m h.2⟩
  rw [storeGate_keys]
  split
  · exact h.1
  · next hm =>
    exact List.nodup_append.mpr ⟨h.1, List.nodup_singleton g,
      by simpa [List.disjoint_singleton] using hm⟩

theorem addNodeToInfo_wf (l : Layer) (n : GraphNode) (m : InfoMap)
    (hm : wfInfoMap m) : wfInfoMap (addNodeToInfo l n m) := by
  rw [addNodeToInfo]
  split
  · exact hm
  · exact foldl_preserve wfInfoMap _
      (fun acc g hacc => storeGate_wf g.name l (nodeInfo l n) acc hacc) _ m hm

theorem calculateAreas_wf (nodes : List (Layer × List GraphNode)) :
    wfInfoMap (calculateAreas nodes) := by
  rw [calculateAreas]
  refine foldl_preserve wfInfoMap _ ?_ nodes [] ⟨by simp, by simp⟩
  intro m ln hm
  exact foldl_preserve wfInfoMap _ (fun acc n hacc => addNodeToInfo_wf ln.1 n acc hacc)
    ln.2 m hm

theorem storeRec_merge (l : Layer) (info : InfoType) : ∀ (recs : GateRecords)
    (old : InfoType), lookupRec recs l = some old →
    lookupRec (storeRec recs l info) l = some (infoAdd old info) := by
  intro recs
  induction recs with
  | nil => intro old h; exact absurd h (by simp [lookupRec])
  | cons kv rest ih =>
    intro old h
    obtain ⟨k, v⟩ := kv
    by_cases hk : k = l
    · subst hk
      rw [lookupRec, if_pos rfl] at h
      obtain rfl : v = old := by simpa using h
      rw [storeRec, if_pos rfl, lookupRec, if_pos rfl]
    · rw [lookupRec, if_neg hk] at h
      rw [storeRec, if_neg hk, lookupRec, if_neg hk]
      exact ih old h

/-- C7 as amended: at most one record exists per (gate, layer) — the map
keys and the per-gate layer keys of `calculateAreas` never repeat; storing
an island record for a layer that already has one merges it with `+=`,
which (per the spec-modelled operator) sums `area` and `side_area` and keeps
the existing record's `iterm_gate_area` / `iterm_diff_area` (no
double-counting by the merge); but each island's record carries
`iterm_gate_area` / `iterm_diff_area` SUMMED over all instance pins attached
to that island (source line 1828), not the per-gate values. -/
theorem C7_record_merging (nodes : List (Layer × List GraphNode)) :
    wfInfoMap (calculateAreas nodes) ∧
    (∀ (recs : GateRecords) (l : Layer) (old info : InfoType),
      lookupRec recs l = some old →
      lookupRec (storeRec recs l info) l = some (infoAdd old info)) ∧
    (∀ a b : InfoType,
      (infoAdd a b).area = a.area + b.area ∧
      (infoAdd a b).side_area = a.side_area + b.side_area ∧
      (infoAdd a b).iterm_gate_area = a.iterm_gate_area ∧
      (infoAdd a b).iterm_diff_area = a.iterm_diff_area) ∧
    (∀ (l : Layer) (n : GraphNode),
      (nodeInfo l n).iterm_gate_area
        = ((n.gates.filter (·.isITerm)).map (fun x => gateArea x.mterm)).sum ∧
      (nodeInfo l n).iterm_diff_area
        = ((n.gates.filter (·.isITerm)).map (fun x => diffArea x.mterm)).sum) :=
  ⟨calculateAreas_wf nodes,
   fun recs l old info h => storeRec_merge l info recs old h,
   fun _ _ => ⟨rfl, rfl, rfl, rfl⟩,
   fun _ _ => ⟨rfl, rfl⟩⟩

/-- Concrete island for the C7 scenarios: two valid input gates (ids 1 and
2) with gate areas 3 and 5 on one island. -/
def nodeC7 : GraphNode :=
  { pol_area := 10
    pol_perimeter := 22
    gates := [⟨true, 1, { gate_areas := [3] }⟩, ⟨true, 2, { gate_areas := [5] }⟩] }

/-- C7 counterexample: with two valid gates on one island, the record stored
for gate 1 has `iterm_gate_area` 8 = 3 + 5 — the sum over both gates on the
island — not the per-gate value 3, refuting "iterm_gate_area and
iterm_diff_area remain the per-gate values". -/
theorem C7_counterexample :
    (lookupGate (calculateAreas [(⟨1, 1, 1, none⟩, [nodeC7])]) 1).map
        (fun recs => (lookupRec recs ⟨1, 1, 1, none⟩).map (·.iterm_gate_area))
      = some (some 8) ∧
    gateArea (⟨true, 1, { gate_areas := [3] }⟩ : PinType).mterm = 3 ∧
    (8 : ℚ) ≠ 3 := by
  refine ⟨?_, ?_, by norm_num⟩
  · norm_num [calculateAreas, addNodeToInfo, nodeC7, nodeInfo, isValidGate, gateArea,
      diffArea, storeGate, storeRec, lookupGate, lookupRec]
  · norm_num [gateArea]

/-- Witness for C7: merging a second island record for the same (gate,
layer) sums the areas and keeps the first record's gate area. -/
theorem C7_witness :
    lookupRec (storeRec [(⟨1, 1, 1, none⟩, { area := 2, iterm_gate_area := 4 })]
        ⟨1, 1, 1, none⟩ { area := 3, iterm_gate_area := 9 }) ⟨1, 1, 1, none⟩
      = some (infoAdd { area := 2, iterm_gate_area := 4 }
          { area := 3, iterm_gate_area := 9 }) ∧
    (infoAdd ({ area := 2, iterm_gate_area := 4 } : InfoType)
        { area := 3, iterm_gate_area := 9 }).area = 5 ∧
    (infoAdd ({ area := 2, iterm_gate_area := 4 } : InfoType)
        { area := 3, iterm_gate_area := 9 }).iterm_gate_area = 4 := by
  refine ⟨(C7_record_merging []).2.1 _ _ _ _ (by rw [lookupRec, if_pos rfl]), ?_, ?_⟩
  · norm_num [infoAdd]
  · norm_num [infoAdd]

/-- Sum of one field over the records of the layers in `ls` whose kind
(via when `k` is true, metal when false) matches; the layers without a
record contribute nothing.  This is the spec-side description of the running
sums of `calculateCAR`. -/
def kindSum (f : InfoType → ℚ) (k : Bool) (recs : GateRecords) (ls : List Layer) : ℚ :=
  (ls.filterMap (fun m =>
    if decide (m.routingLevel = 0) = k then (lookupRec recs m).map f else none)).sum

theorem kindSum_nil (f : InfoType → ℚ) (k : Bool) (recs : GateRecords) :
    kindSum f k recs [] = 0 := rfl

theorem calcCARgo_lookup (recs : GateRecords) (l : Layer) (i : InfoType)
    (hrec : lookupRec recs l = some i) :
    ∀ (pre : List Layer) (post : List Layer) (sumW sumV : InfoType), l ∉ pre →
    ∃ i', lookupRec (calcCARgo recs (pre ++ l :: post) sumW sumV) l = some i' ∧
      i'.PAR = i.PAR ∧ i'.PSR = i.PSR ∧
      i'.CAR = i.CAR + i.PAR
        + (if l.routingLevel = 0 then sumV.PAR else sumW.PAR)
        + kindSum (·.PAR) (decide (l.routingLevel = 0)) recs pre ∧
      i'.CSR = i.CSR + i.PSR
        + (if l.routingLevel = 0 then sumV.PSR else sumW.PSR)
        + kindSum (·.PSR) (decide (l.routingLevel = 0)) recs pre := by
  intro pre
  induction pre with
  | nil =>
    intro post sumW sumV _
    simp only [List.nil_append]
    by_cases hvia : l.routingLevel = 0
    · have hred : calcCARgo recs (l :: post) sumW sumV
          = (l, { i with
                  CAR := i.CAR + (infoAdd sumV i).PAR
                  CSR := i.CSR + (infoAdd sumV i).PSR
                  diff_CAR := i.diff_CAR + (infoAdd sumV i).diff_PAR
                  diff_CSR := i.diff_CSR + (infoAdd sumV i).diff_PSR })
              :: calcCARgo recs post sumW (infoAdd sumV i) := by
        simp only [calcCARgo, hrec]
        rw [if_pos hvia]
      refine ⟨{ i with
                  CAR := i.CAR + (infoAdd sumV i).PAR
                  CSR := i.CSR + (infoAdd sumV i).PSR
                  diff_CAR := i.diff_CAR + (infoAdd sumV i).diff_PAR
                  diff_CSR := i.diff_CSR + (infoAdd sumV i).diff_PSR },
        by rw [hred, lookupRec, if_pos rfl], rfl, rfl, ?_, ?_⟩
      · show i.CAR + (infoAdd sumV i).PAR = _
        rw [if_pos hvia, kindSum_nil]
        show i.CAR + (sumV.PAR + i.PAR) = _
        ring
      · show i.CSR + (infoAdd sumV i).PSR = _
        rw [if_pos hvia, kindSum_nil]
        show i.CSR + (sumV.PSR + i.PSR) = _
        ring
    · have hred : calcCARgo recs (l :: post) sumW sumV
          = (l, { i with
                  CAR := i.CAR + (infoAdd sumW i).PAR
                  CSR := i.CSR + (infoAdd sumW i).PSR
                  diff_CAR := i.diff_CAR + (infoAdd sumW i).diff_PAR
                  diff_CSR := i.diff_CSR + (infoAdd sumW i).diff_PSR })
              :: calcCARgo recs post (infoAdd sumW i) sumV := by
        simp only [calcCARgo, hrec]
        rw [if_neg hvia]
      refine ⟨{ i with
                  CAR := i.CAR + (infoAdd sumW i).PAR
                  CSR := i.CSR + (infoAdd sumW i).PSR
                  diff_CAR := i.diff_CAR + (infoAdd sumW i).diff_PAR
                  diff_CSR := i.diff_CSR + (infoAdd sumW i).diff_PSR },
        by rw [hred, lookupRec, if_pos rfl], rfl, rfl, ?_, ?_⟩
      · show i.CAR + (infoAdd sumW i).PAR = _
        rw [if_neg hvia, kindSum_nil]
        show i.CAR + (sumW.PAR + i.PAR) = _
        ring
      · show i.CSR + (infoAdd sumW i).PSR = _
        rw [if_neg hvia, kindSum_nil]
        show i.CSR + (sumW.PSR + i.PSR) = _
        ring
  | cons p pre ih =>
    intro post sumW sumV hnot
    have hlp : l ≠ p := fun h => hnot (h ▸ List.mem_cons_self _ _)
    have hnot2 : l ∉ pre := fun h => hnot (List.mem_cons_of_mem _ h)
    rw [List.cons_append]
    cases hp : lookupRec recs p with
    | none =>
      have hred : calcCARgo recs (p :: (pre ++ l :: post)) sumW sumV
          = calcCARgo recs (pre ++ l :: post) sumW sumV := by
        simp only [calcCARgo, hp]
      have hks : ∀ f : InfoType → ℚ, kindSum f (decide (l.routingLevel = 0)) recs (p :: pre)
          = kindSum f (decide (l.routingLevel = 0)) recs pre := by
        intro f
        simp [kindSum, List.filterMap_cons, hp]
      obtain ⟨i', h1, h2, h3, h4, h5⟩ := ih post sumW sumV hnot2
      exact ⟨i', by rw [hred]; exact h1, h2, h3, by rw [hks]; exact h4,
        by rw [hks]; exact h5⟩
    | some j =>
      by_cases hpv : p.routingLevel = 0
      · have hred : calcCARgo recs (p :: (pre ++ l :: post)) sumW sumV
            = (p, { j with
                    CAR := j.CAR + (infoAdd sumV j).PAR
                    CSR := j.CSR + (infoAdd sumV j).PSR
                    diff_CAR := j.diff_CAR + (infoAdd sumV j).diff_PAR
                    diff_CSR := j.diff_CSR + (infoAdd sumV j).diff_PSR })
                :: calcCARgo recs (pre ++ l :: post) sumW (infoAdd sumV j) := by
          simp only [calcCARgo, hp]
          rw [if_pos hpv]
        obtain ⟨i', h1, h2, h3, h4, h5⟩ := ih post sumW (infoAdd sumV j) hnot2
        refine ⟨i', ?_, h2, h3, ?_, ?_⟩
        · rw [hred, lookupRec, if_neg (fun h => hlp h.symm)]
          exact h1
        · rw [h4]
          by_cases hvia : l.routingLevel = 0
          · rw [if_pos hvia, if_pos hvia]
            have hks : kindSum (·.PAR) (decide (l.routingLevel = 0)) recs (p :: pre)
                = j.PAR + kindSum (·.PAR) (decide (l.routingLevel = 0)) recs pre := by
              simp [kindSum, List.filterMap_cons, hp, hpv, hvia]
            rw [hks]
            show i.CAR + i.PAR + (sumV.PAR + j.PAR) + _ = _
            ring
          · rw [if_neg hvia, if_neg hvia]
            have hks : kindSum (·.PAR) (decide (l.routingLevel = 0)) recs (p :: pre)
                = kindSum (·.PAR) (decide (l.routingLevel = 0)) recs pre := by
              simp [kindSum, List.filterMap_cons, hp, hpv, hvia]
            rw [hks]
        · rw [h5]
          by_cases hvia : l.routingLevel = 0
          · rw [if_pos hvia, if_pos hvia]
            have hks : kindSum (·.PSR) (decide (l.routingLevel = 0)) recs (p :: pre)
                = j.PSR + kindSum (·.PSR) (decide (l.routingLevel = 0)) recs pre := by
              simp [kindSum, List.filterMap_cons, hp, hpv, hvia]
            rw [hks]
            show i.CSR + i.PSR + (sumV.PSR + j.PSR) + _ = _
            ring
          · rw [if_neg hvia, if_neg hvia]
            have hks : kindSum (·.PSR) (decide (l.routingLevel = 0)) recs (p :: pre)
                = kindSum (·.PSR) (decide (l.routingLevel = 0)) recs pre := by
              simp [kindSum, List.filterMap_cons, hp, hpv, hvia]
            rw [hks]
      · have hred : calcCARgo recs (p :: (pre ++ l :: post)) sumW sumV
            = (p, { j with
                    CAR := j.CAR + (infoAdd sumW j).PAR
                    CSR := j.CSR + (infoAdd sumW j).PSR
                    diff_CAR := j.diff_CAR + (infoAdd sumW j).diff_PAR
                    diff_CSR := j.diff_CSR + (infoAdd sumW j).diff_PSR })
                :: calcCARgo recs (pre ++ l :: post) (infoAdd sumW j) sumV := by
          simp only [calcCARgo, hp]
          rw [if_neg hpv]
        obtain ⟨i', h1, h2, h3, h4, h5⟩ := ih post (infoAdd sumW j) sumV hnot2
        refine ⟨i', ?_, h2, h3, ?_, ?_⟩
        · rw [hred, lookupRec, if_neg (fun h => hlp h.symm)]
          exact h1
        · rw [h4]
          by_cases hvia : l.routingLevel = 0
          · rw [if_pos hvia, if_pos hvia]
            have hks : kindSum (·.PAR) (decide (l.routingLevel = 0)) recs (p :: pre)
                = kindSum (·.PAR) (decide (l.routingLevel = 0)) recs pre := by
              simp [kindSum, List.filterMap_cons, hp, hpv, hvia]
            rw [hks]
          · rw [if_neg hvia, if_neg hvia]
            have hks : kindSum (·.PAR) (decide (l.routingLevel = 0)) recs (p :: pre)
                = j.PAR + kindSum (·.PAR) (decide (l.routingLevel = 0)) recs pre := by
              simp [kindSum, List.filterMap_cons, hp, hpv, hvia]
            rw [hks]
            show i.CAR + i.PAR + (sumW.PAR + j.PAR) + _ = _
            ring
        · rw [h5]
          by_cases hvia : l.routingLevel = 0
          · rw [if_pos hvia, if_pos hvia]
            have hks : kindSum (·.PSR) (decide (l.routingLevel = 0)) recs (p :: pre)
                = kindSum (·.PSR) (decide (l.routingLevel = 0)) recs pre := by
              simp [kindSum, List.filterMap_cons, hp, hpv, hvia]
            rw [hks]
          · rw [if_neg hvia, if_neg hvia]
            have hks : kindSum (·.PSR) (decide (l.routingLevel = 0)) recs (p :: pre)
                = j.PSR + kindSum (·.PSR) (decide (l.routingLevel = 0)) recs pre := by
              simp [kindSum, List.filterMap_cons, hp, hpv, hvia]
            rw [hks]
            show i.CSR + i.PSR + (sumW.PSR + j.PSR) + _ = _
            ring

theorem kindSum_nonneg (f : InfoType → ℚ) (k : Bool) (recs : GateRecords)
    (hgood : ∀ e ∈ recs, 0 ≤ f e.2) : ∀ ls : List Layer, 0 ≤ kindSum f k recs ls := by
  intro ls
  refine List.sum_nonneg ?_
  intro x hx
  obtain ⟨p, hp, hfx⟩ := List.mem_filterMap.mp hx
  by_cases hc : decide (p.routingLevel = 0) = k
  · rw [if_pos hc] at hfx
    cases hl : lookupRec recs p with
    | none => rw [hl] at hfx; exact absurd hfx (by simp)
    | some j =>
      rw [hl] at hfx
      obtain rfl : f j = x := by simpa using hfx
      exact hgood (p, j) (lookupRec_mem recs p j hl)
  · rw [if_neg hc] at hfx
    exact absurd hfx (by simp)

theorem kindSum_eq_zero_iff (f : InfoType → ℚ) (k : Bool) (recs : GateRecords)
    (hgood : ∀ e ∈ recs, 0 ≤ f e.2) : ∀ ls : List Layer,
    (kindSum f k recs ls = 0 ↔
      ∀ p ∈ ls, decide (p.routingLevel = 0) = k →
        ∀ j, lookupRec recs p = some j → f j = 0) := by
  intro ls
  induction ls with
  | nil => simp [kindSum]
  | cons p ls ih =>
    by_cases hc : decide (p.routingLevel = 0) = k
    · cases hl : lookupRec recs p with
      | none =>
        have hsk : kindSum f k recs (p :: ls) = kindSum f k recs ls := by
          simp [kindSum, List.filterMap_cons, hl]
        rw [hsk, ih]
        constructor
        · intro h q hq hkq j hj
          rcases List.mem_cons.mp hq with rfl | hq2
          · rw [hl] at hj; exact absurd hj (by simp)
          · exact h q hq2 hkq j hj
        · intro h q hq hkq j hj
          exact h q (List.mem_cons_of_mem _ hq) hkq j hj
      | some j =>
        have hsk : kindSum f k recs (p :: ls) = f j + kindSum f k recs ls := by
          simp [kindSum, List.filterMap_cons, hc, hl]
        rw [hsk]
        have h1 : 0 ≤ f j := hgood (p, j) (lookupRec_mem recs p j hl)
        have h2 : 0 ≤ kindSum f k recs ls := kindSum_nonneg f k recs hgood ls
        constructor
        · intro h
          have hfj : f j = 0 := by linarith
          have hrest : kindSum f k recs ls = 0 := by linarith
          intro q hq hkq j2 hj2
          rcases List.mem_cons.mp hq with rfl | hq2
          · rw [hl] at hj2
            obtain rfl : j = j2 := by simpa using hj2
            exact hfj
          · exact (ih.mp hrest) q hq2 hkq j2 hj2
        · intro h
          have hfj : f j = 0 := h p (List.mem_cons_self _ _) hc j hl
          have hrest : kindSum f k recs ls = 0 :=
            ih.mpr (fun q hq hkq j2 hj2 => h q (List.mem_cons_of_mem _ hq) hkq j2 hj2)
          rw [hfj, hrest]
          ring
    · have hsk : kindSum f k recs (p :: ls) = kindSum f k recs ls := by
        simp [kindSum, List.filterMap_cons, hc]
      rw [hsk, ih]
      constructor
      · intro h q hq hkq j hj
        rcases List.mem_cons.mp hq with rfl | hq2
        · exact absurd hkq hc
        · exact h q hq2 hkq j hj
      · intro h q hq hkq j hj
        exact h q (List.mem_cons_of_mem _ hq) hkq j hj

theorem calculateCAR_lookup (layers : List Layer) : ∀ (m : InfoMap) (g : Nat)
    (recs : GateRecords), lookupGate m g = some recs →
    lookupGate (calculateCAR layers m) g = some (calcCARgo recs layers {} {}) := by
  intro m
  induction m with
  | nil => intro g recs h; exact absurd h (by simp [lookupGate])
  | cons kv rest ih =>
    intro g recs h
    obtain ⟨k, v⟩ := kv
    by_cases hk : k = g
    · subst hk
      rw [lookupGate, if_pos rfl] at h
      obtain rfl : v = recs := by simpa using h
      simp only [calculateCAR, List.map_cons]
      rw [lookupGate, if_pos rfl]
    · rw [lookupGate, if_neg hk] at h
      simp only [calculateCAR, List.map_cons]
      rw [lookupGate, if_neg hk]
      exact ih g recs h

/-- Concrete via and metal layers and a gate's records for the C4
scenarios: the via below carries PAR 1, the metal above PAR 2. -/
def viaC4 : Layer := ⟨0, 0, 0, some {}⟩

def metC4 : Layer := ⟨1, 1, 1, some {}⟩

def recsC4 : GateRecords := [(viaC4, { PAR := 1 }), (metC4, { PAR := 2 })]

/-- C4 counterexample: `calculateCAR` keeps SEPARATE running sums for via
and metal layers, so on the metal layer CAR = PAR = 2 holds even though the
via layer below carries a record (PAR = 1) for the same gate — the metal
layer is not the lowest layer carrying the gate, refuting "equality iff L is
the lowest layer carrying that gate". -/
theorem C4_counterexample :
    (lookupRec (calcCARgo recsC4 [viaC4, metC4] {} {}) metC4).map
        (fun x => (x.CAR, x.PAR)) = some (2, 2) ∧
    lookupRec recsC4 viaC4 = some { PAR := 1 } ∧
    viaC4 ≠ metC4 := by
  refine ⟨?_, ?_, ?_⟩ <;>
    norm_num [calcCARgo, recsC4, viaC4, metC4, lookupRec, infoAdd]

/-- C4 as amended: after `calculatePAR` (with non-negative factors and
areas) all partial ratios are non-negative, and after `calculateCAR` every
record additionally has non-negative CAR and CSR with PAR ≤ CAR; the
cumulative sums are kept separately per layer kind (cut vs routing), so
CAR = PAR holds iff every record of the same gate on a LOWER LAYER OF THE
SAME KIND has PAR = 0 (not iff the layer is the lowest layer carrying the
gate). -/
theorem C4_cumulative_ratios :
    (∀ (l : Layer) (i : InfoType),
       0 ≤ (layerModel l).metal_factor → 0 ≤ (layerModel l).diff_metal_factor →
       0 ≤ (layerModel l).side_metal_factor → 0 ≤ (layerModel l).diff_side_metal_factor →
       0 ≤ i.area → 0 ≤ i.side_area → 0 ≤ i.iterm_gate_area →
       0 ≤ (calculateWirePar l i).PAR ∧ 0 ≤ (calculateWirePar l i).PSR) ∧
    (∀ (l : Layer) (i : InfoType),
       0 ≤ (layerModel l).cut_factor → 0 ≤ (layerModel l).diff_cut_factor →
       0 ≤ i.area → 0 ≤ i.iterm_gate_area →
       0 ≤ (calculateViaPar l i).PAR ∧ (calculateViaPar l i).PSR = i.PSR) ∧
    (∀ (pre post : List Layer) (l : Layer) (m : InfoMap) (g : Nat)
       (recs : GateRecords) (i : InfoType),
       l ∉ pre →
       lookupGate m g = some recs → lookupRec recs l = some i →
       (∀ e ∈ recs, 0 ≤ e.2.PAR ∧ 0 ≤ e.2.PSR ∧ e.2.CAR = 0 ∧ e.2.CSR = 0) →
       ∃ i', lookupGate (calculateCAR (pre ++ l :: post) m) g
            = some (calcCARgo recs (pre ++ l :: post) {} {}) ∧
         lookupRec (calcCARgo recs (pre ++ l :: post) {} {}) l = some i' ∧
         i'.PAR = i.PAR ∧ i'.PSR = i.PSR ∧
         0 ≤ i'.PAR ∧ 0 ≤ i'.PSR ∧ 0 ≤ i'.CAR ∧ 0 ≤ i'.CSR ∧
         i'.PAR ≤ i'.CAR ∧
         (i'.CAR = i'.PAR ↔
           ∀ p ∈ pre, decide (p.routingLevel = 0) = decide (l.routingLevel = 0) →
             ∀ j, lookupRec recs p = some j → j.PAR = 0)) := by
  refine ⟨?_, ?_, ?_⟩
  · intro l i h1 h2 h3 h4 ha hs hg
    unfold calculateWirePar
    split
    · split
      · exact ⟨div_nonneg (mul_nonneg h2 ha) hg, div_nonneg (mul_nonneg h4 hs) hg⟩
      · exact ⟨div_nonneg (mul_nonneg h1 ha) hg, div_nonneg (mul_nonneg h3 hs) hg⟩
    · split
      · exact ⟨div_nonneg (mul_nonneg h2 ha) hg, div_nonneg (mul_nonneg h4 hs) hg⟩
      · exact ⟨div_nonneg (mul_nonneg h1 ha) hg, div_nonneg (mul_nonneg h3 hs) hg⟩
  · intro l i h1 h2 ha hg
    unfold calculateViaPar
    split
    · split
      · exact ⟨div_nonneg (mul_nonneg h2 ha) hg, rfl⟩
      · exact ⟨div_nonneg (mul_nonneg h1 ha) hg, rfl⟩
    · split
      · exact ⟨div_nonneg (mul_nonneg h2 ha) hg, rfl⟩
      · exact ⟨div_nonneg (mul_nonneg h1 ha) hg, rfl⟩
  · intro pre post l m g recs i hnot hg hl hgood
    obtain ⟨i', hlook, hPAR, hPSR, hCAR, hCSR⟩ :=
      calcCARgo_lookup recs l i hl pre post {} {} hnot
    obtain ⟨hiPAR, hiPSR, hiCAR, hiCSR⟩ := hgood (l, i) (lookupRec_mem recs l i hl)
    have hbase : ∀ q : ℚ, (if l.routingLevel = 0 then ({} : InfoType).PAR
        else ({} : InfoType).PAR) = 0 ∧ (if l.routingLevel = 0 then ({} : InfoType).PSR
        else ({} : InfoType).PSR) = 0 := fun _ => ⟨by split <;> rfl, by split <;> rfl⟩
    have hksPAR : 0 ≤ kindSum (·.PAR) (decide (l.routingLevel = 0)) recs pre :=
      kindSum_nonneg _ _ recs (fun e he => (hgood e he).1) pre
    have hksPSR : 0 ≤ kindSum (·.PSR) (decide (l.routingLevel = 0)) recs pre :=
      kindSum_nonneg _ _ recs (fun e he => (hgood e he).2.1) pre
    have hCAR2 : i'.CAR = i.PAR + kindSum (·.PAR) (decide (l.routingLevel = 0)) recs pre := by
      rw [hCAR, hiCAR, (hbase 0).1]
      ring
    have hCSR2 : i'.CSR = i.PSR + kindSum (·.PSR) (decide (l.routingLevel = 0)) recs pre := by
      rw [hCSR, hiCSR, (hbase 0).2]
      ring
    refine ⟨i', calculateCAR_lookup _ m g recs hg, hlook, hPAR, hPSR, ?_, ?_, ?_, ?_, ?_, ?_⟩
    · rw [hPAR]; exact hiPAR
    · rw [hPSR]; exact hiPSR
    · rw [hCAR2]; linarith
    · rw [hCSR2]; linarith
    · rw [hPAR, hCAR2]; linarith
    · rw [hPAR, hCAR2]
      rw [← kindSum_eq_zero_iff (·.PAR) (decide (l.routingLevel = 0)) recs
        (fun e he => (hgood e he).1) pre]
      constructor
      · intro h; linarith
      · intro h; rw [h]; ring

/-- Witness for C4: two metal layers with records PAR 1 and PAR 2; on the
upper layer CAR = 3 ≥ PAR = 2 with strict inequality since the lower metal
record has nonzero PAR. -/
theorem C4_witness :
    (lookupRec (calcCARgo [(⟨1, 1, 1, none⟩, { PAR := 1 }), (⟨2, 2, 1, none⟩, { PAR := 2 })]
        [⟨1, 1, 1, none⟩, ⟨2, 2, 1, none⟩] {} {}) ⟨2, 2, 1, none⟩).map
          (fun x => decide (x.PAR ≤ x.CAR)) = some true := by
  obtain ⟨i', hmap, hlook, hPAR, hPSR, hp1, hp2, hc1, hc2, hle, hiff⟩ :=
    C4_cumulative_ratios.2.2 [⟨1, 1, 1, none⟩] [] ⟨2, 2, 1, none⟩
      [(7, [(⟨1, 1, 1, none⟩, { PAR := 1 }), (⟨2, 2, 1, none⟩, { PAR := 2 })])] 7
      [(⟨1, 1, 1, none⟩, { PAR := 1 }), (⟨2, 2, 1, none⟩, { PAR := 2 })] { PAR := 2 }
      (by intro h; simp only [List.mem_singleton] at h; exact absurd (congrArg Layer.idx h) (by norm_num))
      (by rw [lookupGate, if_pos rfl])
      (by rw [lookupRec, if_neg ?_, lookupRec, if_pos rfl]
          intro h
          exact absurd (congrArg Layer.idx h) (by norm_num))
      (by intro e he
          rcases List.mem_cons.mp he with rfl | he2
          · exact ⟨by norm_num, by norm_num, rfl, rfl⟩
          · rcases List.mem_cons.mp he2 with rfl | he3
            · exact ⟨by norm_num, by norm_num, rfl, rfl⟩
            · exact absurd he3 (by simp))
  rw [show ([⟨1, 1, 1, none⟩] : List Layer) ++ ⟨2, 2, 1, none⟩ :: []
      = [⟨1, 1, 1, none⟩, ⟨2, 2, 1, none⟩] from rfl] at hlook
  rw [hlook]
  simp [hle]

end Ant
